import Mathlib

/-!
Shallow embedding of the geo-regulation compliance pipeline
(`app/chunker.py`, `app/main.py`, `app/dify_client.py`) and proofs of the
specified properties of its text-segmentation, batching, normalization and
aggregation algorithms.

Python strings are modelled as `List Char` (Unicode code points); Python
`int` indices that stay non-negative on all paths exercised by the theorems
are modelled as `Nat`.
-/

namespace GeoGov

/-- Python's whitespace set: the 29 code points for which `str.isspace()`
holds and which `\s` matches in a `str` pattern (they coincide). Used by
`str.strip()` and by the section-heading regex. -/
def pyIsSpace (c : Char) : Bool :=
  [0x9, 0xa, 0xb, 0xc, 0xd, 0x1c, 0x1d, 0x1e, 0x1f, 0x20, 0x85, 0xa0,
   0x1680, 0x2000, 0x2001, 0x2002, 0x2003, 0x2004, 0x2005, 0x2006, 0x2007,
   0x2008, 0x2009, 0x200a, 0x2028, 0x2029, 0x202f, 0x205f, 0x3000].contains c.toNat

/-- Python `str.strip()`: remove whitespace from both ends. -/
def pyStrip (s : List Char) : List Char :=
  ((s.dropWhile pyIsSpace).reverse.dropWhile pyIsSpace).reverse

/-- Python slice `s[a:b]` for `0 ≤ a`, `0 ≤ b` (the only regime the code
reaches in the theorems below). -/
def pySlice (s : List Char) (a b : Nat) : List Char :=
  (s.take b).drop a

/-- `chunker.Chunk`: a single text chunk with metadata. -/
structure Chunk where
  section_id : List Char
  chunk_index : Nat
  text : List Char
  deriving Repr, DecidableEq

/-- The loop of `chunker.chunk_section`, with explicit fuel: `none` means the
loop did not terminate within `fuel` iterations.  Each iteration takes the
window `section_text[start:end]` with `end = min (start + max_chars) len`,
strips it, appends it as a chunk, stops if `end ≥ len`, and otherwise
continues from `start = end - overlap`. -/
def chunkSectionGo (fuel : Nat) (s : List Char) (sid : List Char)
    (max_chars overlap : Nat) (start chunk_idx : Nat) : Option (List Chunk) :=
  match fuel with
  | 0 => none
  | fuel + 1 =>
    if start < s.length then
      let endP := min (start + max_chars) s.length
      let c : Chunk := ⟨sid, chunk_idx, pyStrip (pySlice s start endP)⟩
      if s.length ≤ endP then
        some [c]
      else
        match chunkSectionGo fuel s sid max_chars overlap (endP - overlap) (chunk_idx + 1) with
        | none => none
        | some cs => some (c :: cs)
    else
      some []

/-- `chunker.chunk_section`: run the loop from `start = 0`, `chunk_idx = 0`
with enough fuel for every terminating execution (the loop advances `start`
by at least one per iteration whenever `overlap < max_chars`); `none` means
the Python loop diverges and never returns. -/
def chunk_section (s : List Char) (sid : List Char) (max_chars overlap : Nat) :
    Option (List Chunk) :=
  chunkSectionGo (s.length + 1) s sid max_chars overlap 0 0

/-- The same loop, recording only the window `(start, end)` of each
iteration; this depends only on the text's length. -/
def chunkSpansGo (fuel : Nat) (len : Nat) (max_chars overlap : Nat) (start : Nat) :
    Option (List (Nat × Nat)) :=
  match fuel with
  | 0 => none
  | fuel + 1 =>
    if start < len then
      let endP := min (start + max_chars) len
      if len ≤ endP then
        some [(start, endP)]
      else
        match chunkSpansGo fuel len max_chars overlap (endP - overlap) with
        | none => none
        | some ps => some ((start, endP) :: ps)
    else
      some []

/-- Window spans of `chunk_section` on a text of length `len`. -/
def chunkSpans (len : Nat) (max_chars overlap : Nat) : Option (List (Nat × Nat)) :=
  chunkSpansGo (len + 1) len max_chars overlap 0

/-- The non-overlap portion of each chunk's span: each span contributes the
slice up to the start of the next span, the last span contributes its whole
slice. -/
def joinNonOverlap (s : List Char) : List (Nat × Nat) → List Char
  | [] => []
  | [(a, b)] => pySlice s a b
  | (a, _) :: (c, d) :: rest => pySlice s a c ++ joinNonOverlap s ((c, d) :: rest)

/-! ### Aggregator (`main._aggregate_results`) -/

/-- `models.ComplianceResult`.  `confidence_score` is a Python float used
only through order comparisons by the code under verification; it is
modelled as a rational. -/
structure ComplianceResult where
  criterion_id : List Char
  compliance_status : List Char
  confidence_score : ℚ
  reasoning : List Char
  supporting_evidence_from_document : List Char
  flag_for_human_review : Bool
  deriving DecidableEq

/-- Python `str.upper()` on the ASCII fragment (sufficient for the status
alphabet `COMPLIANT / NON_COMPLIANT / UNCERTAIN` compared by the code). -/
def pyUpperChar (c : Char) : Char :=
  if 'a' ≤ c ∧ c ≤ 'z' then Char.ofNat (c.toNat - 32) else c

/-- Python `str.upper()` over a string (ASCII fragment). -/
def pyUpper (s : List Char) : List Char := s.map pyUpperChar

/-- Python `max(a :: l, key)`: fold that replaces the current best only on a
strictly greater key, so the earliest element wins ties. -/
def pyMaxBy {α : Type} (key : α → ℚ) (a : α) (l : List α) : α :=
  l.foldl (fun best x => if key best < key x then x else best) a

/-- The status test `r.compliance_status.upper() == status` used by the
aggregator's `pick`. -/
def statusIs (status : List Char) (x : ComplianceResult) : Bool :=
  pyUpper x.compliance_status == status

/-- `main._aggregate_results`: the synthetic UNCERTAIN result on an empty
list; else the best COMPLIANT result, else the best NON_COMPLIANT result,
else the best result overall (Python `max` keyed by `confidence_score`). -/
def aggregate_results (per_chunk : List ComplianceResult) : ComplianceResult :=
  match per_chunk with
  | [] =>
    ⟨"unknown".data, "UNCERTAIN".data, 0,
     "No candidate chunks retrieved for verification.".data, [], true⟩
  | r :: rs =>
    let pick : List Char → Option ComplianceResult := fun status =>
      match (r :: rs).filter (statusIs status) with
      | [] => none
      | c :: cs => some (pyMaxBy (fun x => x.confidence_score) c cs)
    match pick "COMPLIANT".data with
    | some best => best
    | none =>
      match pick "NON_COMPLIANT".data with
      | some best => best
      | none => pyMaxBy (fun x => x.confidence_score) r rs

/-- Modelled from the spec's words, for comparison with the code: "pick the
one with the highest confidence_score; ties in confidence are broken by
input order (first occurrence wins)" — the first element of the list whose
confidence is greater than or equal to every element's confidence. -/
def specFirstMax (l : List ComplianceResult) : Option ComplianceResult :=
  l.find? (fun r => l.all (fun x => x.confidence_score ≤ r.confidence_score))

/-! ### Evidence batcher (`main._make_batches_from_records`) -/

/-- The `segment` sub-object of a retrieval record: may carry a `content`
string or not (absent / `None` / falsy are indistinguishable to the code). -/
structure Segment where
  content : Option (List Char)

/-- One retrieved record: `rec.get("segment")` may be absent. -/
structure RetrievalRecord where
  segment : Option Segment

/-- `((rec.get("segment") or {}).get("content") or "").strip()`. -/
def recText (rec : RetrievalRecord) : List Char :=
  pyStrip (match rec.segment with
    | none => []
    | some seg =>
      match seg.content with
      | none => []
      | some c => c)

/-- The batch separator `SEP` of `_make_batches_from_records`. -/
def SEP : List Char := "\n\n----- CHUNK -----\n\n".data

/-- The positional header `[chunk:i]`. -/
def chunkHeader (i : Nat) : List Char :=
  "[chunk:".data ++ (Nat.repr i).data ++ "]".data

/-- The formatted piece `f"{SEP}{header}\n{text}\n"` for fragment `i`. -/
def mkPiece (i : Nat) (text : List Char) : List Char :=
  SEP ++ chunkHeader i ++ "\n".data ++ text ++ "\n".data

/-- The greedy packing loop of `_make_batches_from_records`, carrying the
enumeration index `i`, the completed batches, the current batch `cur` (kept
as its list of pieces; the code joins each batch into one string the moment
it is closed, which is done once per batch by `make_batches_from_records`
below) and the running size `n_chars`. -/
def makeBatchesPiecesGo (max_chars : Nat) (recs : List RetrievalRecord) (i : Nat)
    (batches : List (List (List Char))) (cur : List (List Char)) (n : Nat) :
    List (List (List Char)) :=
  match recs with
  | [] => if cur = [] then batches else batches ++ [cur]
  | rec :: rest =>
    let text := recText rec
    if text = [] then
      makeBatchesPiecesGo max_chars rest (i + 1) batches cur n
    else
      let piece := mkPiece i text
      if max_chars < n + piece.length ∧ cur ≠ [] then
        makeBatchesPiecesGo max_chars rest (i + 1) (batches ++ [cur]) [piece] piece.length
      else
        makeBatchesPiecesGo max_chars rest (i + 1) batches (cur ++ [piece]) (n + piece.length)

/-- The batches of `_make_batches_from_records` at piece granularity. -/
def makeBatchesPieces (records : List RetrievalRecord) (max_chars : Nat) :
    List (List (List Char)) :=
  makeBatchesPiecesGo max_chars records 0 [] [] 0

/-- `main._make_batches_from_records`: each closed batch joined into one string by `List.flatten`. -/
def make_batches_from_records (records : List RetrievalRecord) (max_chars : Nat) :
    List (List Char) :=
  (makeBatchesPieces records max_chars).map List.flatten

/-- The expected sequence of formatted pieces: one piece per fragment whose
stripped text is non-empty, in input order, each with its positional header. -/
def fragmentPieces (recs : List RetrievalRecord) (i : Nat) : List (List Char) :=
  match recs with
  | [] => []
  | rec :: rest =>
    if recText rec = [] then fragmentPieces rest (i + 1)
    else mkPiece i (recText rec) :: fragmentPieces rest (i + 1)


/-! ### Section splitter (`chunker.split_into_sections`, `chunker.chunk_legal_text`) -/

/-- ASCII digit, as matched by `[0-9]` (and by `\d` on the inputs the
development quantifies over). -/
def isDigitChar (c : Char) : Bool := '0' ≤ c ∧ c ≤ '9'

/-- `[A-Z]`. -/
def isUpperAZ (c : Char) : Bool := 'A' ≤ c ∧ c ≤ 'Z'

/-- ASCII lower-case letter (the cased characters modelled; Python's
`str.isupper` is embedded on the ASCII fragment). -/
def isLowerAscii (c : Char) : Bool := 'a' ≤ c ∧ c ≤ 'z'

/-- Python `str.isupper()` on the ASCII fragment: at least one cased
character and no lower-case one. -/
def pyIsUpper (s : List Char) : Bool := s.any isUpperAZ && !(s.any isLowerAscii)

/-- `re.MULTILINE`'s `^`: position 0 or just after a newline. -/
def isLineStart (s : List Char) (p : Nat) : Bool :=
  decide (p = 0) || (s.get? (p - 1) == some '\n')

/-- Alternative `SECTION\s+\d+\.` of the heading pattern: returns the
matched length.  The quantifiers are greedy and no backtracking can
succeed (whitespace cannot continue a digit run and vice versa), so each
run is maximal. -/
def altSECTION (t : List Char) : Option Nat :=
  if "SECTION".data.isPrefixOf t then
    let t1 := t.drop 7
    let w := (t1.takeWhile pyIsSpace).length
    if w = 0 then none
    else
      let t2 := t1.drop w
      let d := (t2.takeWhile isDigitChar).length
      if d = 0 then none
      else if (t2.drop d).head? = some '.' then some (7 + w + d + 1) else none
  else none

/-- Alternative `CHAPTER\s+\d+`. -/
def altCHAPTER (t : List Char) : Option Nat :=
  if "CHAPTER".data.isPrefixOf t then
    let t1 := t.drop 7
    let w := (t1.takeWhile pyIsSpace).length
    if w = 0 then none
    else
      let d := ((t1.drop w).takeWhile isDigitChar).length
      if d = 0 then none else some (7 + w + d)
  else none

/-- Alternative `[0-9]{4,}\.`. -/
def altNUM (t : List Char) : Option Nat :=
  let d := (t.takeWhile isDigitChar).length
  if 4 ≤ d ∧ (t.drop d).head? = some '.' then some (d + 1) else none

/-- Alternative `[A-Z][A-Z\s]+` (greedy; may span newlines since `\s`
includes them). -/
def altUPPER (t : List Char) : Option Nat :=
  match t with
  | [] => none
  | c :: rest =>
    if isUpperAZ c then
      let u := (rest.takeWhile (fun x => isUpperAZ x || pyIsSpace x)).length
      if u = 0 then none else some (1 + u)
    else none

/-- The lookahead `(?=^\s*(SECTION\s+\d+\.|CHAPTER\s+\d+|[0-9]{4,}\.|[A-Z][A-Z\s]+))`
evaluated at position `p`: skip the maximal whitespace run (greedy `\s*`;
every alternative starts with a non-whitespace character, so no shorter run
can match), then try the alternatives in order; returns the captured group. -/
def headingMatchAt (s : List Char) (p : Nat) : Option (List Char) :=
  let t := (s.drop p).drop ((s.drop p).takeWhile pyIsSpace).length
  match altSECTION t with
  | some k => some (t.take k)
  | none =>
    match altCHAPTER t with
    | some k => some (t.take k)
    | none =>
      match altNUM t with
      | some k => some (t.take k)
      | none =>
        match altUPPER t with
        | some k => some (t.take k)
        | none => none

/-- All split positions of `re.split` with the zero-width lookahead
pattern: the line-start positions where the lookahead matches. -/
def splitPoints (s : List Char) : List Nat :=
  (List.range (s.length + 1)).filter
    (fun p => isLineStart s p && (headingMatchAt s p).isSome)

/-- The list `re.split` returns: the pieces between consecutive split
positions, with the captured group inserted after each piece (zero-width
split, so each piece still starts with its matched heading line). -/
def buildParts (s : List Char) : Nat → List Nat → List (List Char)
  | prev, [] => [s.drop prev]
  | prev, p :: rest =>
    pySlice s prev p :: ((headingMatchAt s p).getD []) :: buildParts s p rest

/-- One step of the merge loop of `split_into_sections`: skip blank parts;
a part whose stripped text starts with `SECTION`/`CHAPTER`, or which is
upper-case, closes the current buffer (appending its stripped text if
non-empty) and starts a new one; any other part is appended to the buffer
with a separating space. -/
def mergeStep (acc : List (List Char) × List Char) (part : List Char) :
    List (List Char) × List Char :=
  if pyStrip part = [] then acc
  else if ("SECTION".data.isPrefixOf (pyStrip part)
      || "CHAPTER".data.isPrefixOf (pyStrip part)) || pyIsUpper part then
    (if acc.2 = [] then acc.1 else acc.1 ++ [pyStrip acc.2], part)
  else (acc.1, acc.2 ++ ' ' :: part)

/-- `chunker.split_into_sections`. -/
def split_into_sections (s : List Char) : List (List Char) :=
  let acc := (buildParts s 0 (splitPoints s)).foldl mergeStep ([], [])
  if acc.2 = [] then acc.1 else acc.1 ++ [pyStrip acc.2]

/-- The `section_id` string `f"section_{i}"`. -/
def sectionId (n : Nat) : List Char := "section_".data ++ (Nat.repr n).data

/-- The loop of `chunk_legal_text`: chunk each section under its 1-based
`section_id`, concatenating all chunks; `none` if any section's chunking
diverges. -/
def chunkAllSections : List (List Char) → Nat → Nat → Nat → Option (List Chunk)
  | [], _, _, _ => some []
  | sec :: rest, i, m, o =>
    match chunk_section sec (sectionId (i + 1)) m o with
    | none => none
    | some cs =>
      match chunkAllSections rest (i + 1) m o with
      | none => none
      | some css => some (cs ++ css)

/-- `chunker.chunk_legal_text` with explicit parameters. -/
def chunk_legal_text (text : List Char) (max_chars overlap : Nat) : Option (List Chunk) :=
  chunkAllSections (split_into_sections text) 0 max_chars overlap

/-- `chunker.chunk_legal_text` at its Python default arguments
`max_chars=95000`, `overlap=2500` (as invoked by the extraction
orchestrator). -/
def chunk_legal_text_default (text : List Char) : Option (List Chunk) :=
  chunk_legal_text text 95000 2500


/-! ### Response normalizer (`dify_client.ThinkTagCleaner`, `CodeFenceUnwrapper`) -/

/-- ASCII lower-casing, for the case-insensitive literals (`<think>`,
`json`) matched under `re.IGNORECASE`. -/
def asciiLower (c : Char) : Char :=
  if 'A' ≤ c ∧ c ≤ 'Z' then Char.ofNat (c.toNat + 32) else c

/-- Case-insensitive prefix test against an already-lower-case pattern. -/
def ciPrefix (pat : List Char) (t : List Char) : Bool :=
  (t.take pat.length).map asciiLower == pat

/-- Index of the first case-insensitive occurrence of `pat`. -/
def findCi (pat : List Char) : List Char → Option Nat
  | [] => if pat = [] then some 0 else none
  | c :: rest =>
    if ciPrefix pat (c :: rest) then some 0
    else (findCi pat rest).map (fun n => n + 1)

/-- The substitution `re.sub(r"<think>.*?</think>", "", text, IGNORECASE|DOTALL)`:
scan left to right; at each `<think>` take the non-greedy match up to the
first following `</think>` and drop it, resuming after the match; a
`<think>` with no closing tag matches nothing and scanning moves on one
character. -/
def removeThinkGo : Nat → List Char → List Char
  | 0, l => l
  | _ + 1, [] => []
  | fuel + 1, c :: rest =>
    if ciPrefix "<think>".data (c :: rest) then
      match findCi "</think>".data (List.drop 7 (c :: rest)) with
      | some k => removeThinkGo fuel (List.drop (7 + k + 8) (c :: rest))
      | none => c :: removeThinkGo fuel rest
    else c :: removeThinkGo fuel rest

/-- The full substitution (the scan consumes at least one character per
step, so `length + 1` fuel always suffices). -/
def removeThink (l : List Char) : List Char := removeThinkGo (l.length + 1) l

/-- `ThinkTagCleaner.clean`: the substitution followed by `.strip()`. -/
def thinkClean (text : List Char) : List Char := pyStrip (removeThink text)

/-- A triple-backtick fence starts here. -/
def ticksAt (t : List Char) : Bool := "```".data.isPrefixOf t

/-- The text strictly before the first ```` ``` ```` occurrence, if any. -/
def beforeTicks : List Char → Option (List Char)
  | [] => none
  | c :: rest =>
    if ticksAt (c :: rest) then some []
    else (beforeTicks rest).map (fun l => c :: l)

/-- The group of the first match of
`` ```(?:json)?\s*([\s\S]*?)\s*``` `` (IGNORECASE): scan for an opening
fence; greedily consume an optional `json` tag; the lazy group runs to the
first following fence (the surrounding `\s*` is immaterial because the
caller strips the group); if no closing fence follows, scanning resumes one
character further. -/
def fenceInner (l : List Char) : Option (List Char) :=
  match l with
  | [] => none
  | c :: rest =>
    if ticksAt (c :: rest) then
      let afterOpen := List.drop 3 (c :: rest)
      let body := if ciPrefix "json".data afterOpen then afterOpen.drop 4 else afterOpen
      match beforeTicks body with
      | some inner => some inner
      | none => fenceInner rest
    else fenceInner rest

/-- `CodeFenceUnwrapper.unwrap`: the first fenced block's stripped inner
content, else the whole text stripped. -/
def codeFenceUnwrap (text : List Char) : List Char :=
  match fenceInner text with
  | some inner => pyStrip inner
  | none => pyStrip text


/-! ### JSON values and `json.loads` -/

/-- A parsed JSON value as `json.loads` produces it.  Numbers are kept as
their lexical components (sign, integer digits, optional fraction digits,
optional exponent sign and digits); `NaN`, `Infinity` and `-Infinity` are
accepted by `json.loads` and modelled by their own constructors.  Strings
are sequences of code points (`\uXXXX` escapes may denote lone
surrogates, which Python keeps). -/
inductive JValue where
  | jnull : JValue
  | jbool : Bool → JValue
  | jnum : Bool → List Char → Option (List Char) → Option (Bool × List Char) → JValue
  | jnan : JValue
  | jinf : Bool → JValue
  | jstr : List Nat → JValue
  | jarr : List JValue → JValue
  | jobj : List (List Nat × JValue) → JValue
  deriving Repr

/-- JSON inter-token whitespace (`json.decoder.WHITESPACE`). -/
def jsonWs (c : Char) : Bool := c = ' ' || c = '\t' || c = '\n' || c = '\r'

/-- Skip JSON whitespace. -/
def skipWs (t : List Char) : List Char := t.dropWhile jsonWs

/-- One hex digit. -/
def hexVal (c : Char) : Option Nat :=
  if '0' ≤ c ∧ c ≤ '9' then some (c.toNat - 48)
  else if 'a' ≤ c ∧ c ≤ 'f' then some (c.toNat - 87)
  else if 'A' ≤ c ∧ c ≤ 'F' then some (c.toNat - 70)
  else none

/-- Exactly four hex digits of a `\uXXXX` escape. -/
def parseHex4 (t : List Char) : Option Nat :=
  match t with
  | a :: b :: c :: d :: _ =>
    match hexVal a, hexVal b, hexVal c, hexVal d with
    | some x, some y, some z, some w => some (((x * 16 + y) * 16 + z) * 16 + w)
    | _, _, _, _ => none
  | _ => none

/-- The code point denoted by a single-character escape (strict mode:
anything else is an error). -/
def escChar (c : Char) : Option Nat :=
  if c = '"' then some 34
  else if c = '\\' then some 92
  else if c = '/' then some 47
  else if c = 'b' then some 8
  else if c = 'f' then some 12
  else if c = 'n' then some 10
  else if c = 'r' then some 13
  else if c = 't' then some 9
  else none

/-- String body after the opening quote, per `json.decoder.py_scanstring`
(strict): plain characters must be ≥ U+0020; `\uXXXX` escapes are decoded,
with a high/low surrogate pair combined into one code point and lone
surrogates kept. -/
def parseStringRest (fuel : Nat) (t : List Char) : Option (List Nat × List Char) :=
  match fuel with
  | 0 => none
  | fuel + 1 =>
    match t with
    | [] => none
    | c :: rest =>
      if c = '"' then some ([], rest)
      else if c = '\\' then
        match rest with
        | [] => none
        | e :: rest2 =>
          if e = 'u' then
            match parseHex4 rest2 with
            | none => none
            | some n =>
              let rest3 := rest2.drop 4
              if 0xD800 ≤ n ∧ n ≤ 0xDBFF then
                if rest3.take 2 = ['\\', 'u'] then
                  match parseHex4 (rest3.drop 2) with
                  | some n2 =>
                    if 0xDC00 ≤ n2 ∧ n2 ≤ 0xDFFF then
                      (parseStringRest fuel (rest3.drop 6)).map
                        (fun sr => ((0x10000 + (n - 0xD800) * 0x400 + (n2 - 0xDC00)) :: sr.1, sr.2))
                    else (parseStringRest fuel rest3).map (fun sr => (n :: sr.1, sr.2))
                  | none => (parseStringRest fuel rest3).map (fun sr => (n :: sr.1, sr.2))
                else (parseStringRest fuel rest3).map (fun sr => (n :: sr.1, sr.2))
              else (parseStringRest fuel rest3).map (fun sr => (n :: sr.1, sr.2))
          else
            match escChar e with
            | some code => (parseStringRest fuel rest2).map (fun sr => (code :: sr.1, sr.2))
            | none => none
      else if c.toNat < 0x20 then none
      else (parseStringRest fuel rest).map (fun sr => (c.toNat :: sr.1, sr.2))

/-- A number per `json.decoder.NUMBER_RE`
`(-?(?:0|[1-9]\d*))(\.\d+)?([eE][-+]?\d+)?`: each optional part is consumed
only when complete. -/
def parseNumber (t : List Char) : Option (JValue × List Char) :=
  let neg : Bool := match t with | '-' :: _ => true | _ => false
  let t1 := if neg then t.drop 1 else t
  match t1 with
  | [] => none
  | c :: r =>
    if c = '0' ∨ ('1' ≤ c ∧ c ≤ '9') then
      let intPart := if c = '0' then ['0'] else c :: r.takeWhile isDigitChar
      let r1 := if c = '0' then r else r.drop (r.takeWhile isDigitChar).length
      let fracPart : Option (List Char) :=
        match r1 with
        | '.' :: r2 =>
          let d := r2.takeWhile isDigitChar
          if d = [] then none else some d
        | _ => none
      let r2 := match fracPart with
        | some d => r1.drop (d.length + 1)
        | none => r1
      let expPart : Option (Bool × List Char) :=
        match r2 with
        | e :: r3 =>
          if e = 'e' ∨ e = 'E' then
            let (es, r4) : Bool × List Char :=
              match r3 with
              | '-' :: r4 => (true, r4)
              | '+' :: r4 => (false, r4)
              | _ => (false, r3)
            let d := r4.takeWhile isDigitChar
            if d = [] then none else some (es, d)
          else none
        | [] => none
      let r3 := match expPart with
        | some (_, d) =>
          r2.drop (1 + d.length + (match r2 with
            | _ :: '-' :: _ => 1
            | _ :: '+' :: _ => 1
            | _ => 0))
        | none => r2
      some (.jnum neg intPart fracPart expPart, r3)
    else none

mutual

/-- `json.decoder`'s `_scan_once`: dispatch on the next character /
literal. -/
def parseValue : Nat → List Char → Option (JValue × List Char)
  | 0, _ => none
  | fuel + 1, t0 =>
    let t := skipWs t0
    match t with
    | [] => none
    | c :: rest =>
      if c = '{' then
        match skipWs rest with
        | '}' :: rest' => some (.jobj [], rest')
        | t' => parseMembers fuel t' []
      else if c = '[' then
        match skipWs rest with
        | ']' :: rest' => some (.jarr [], rest')
        | t' => parseElems fuel t' []
      else if c = '"' then
        (parseStringRest (rest.length + 1) rest).map (fun sr => (.jstr sr.1, sr.2))
      else if "true".data.isPrefixOf t then some (.jbool true, t.drop 4)
      else if "false".data.isPrefixOf t then some (.jbool false, t.drop 5)
      else if "null".data.isPrefixOf t then some (.jnull, t.drop 4)
      else if "NaN".data.isPrefixOf t then some (.jnan, t.drop 3)
      else if "Infinity".data.isPrefixOf t then some (.jinf false, t.drop 8)
      else if "-Infinity".data.isPrefixOf t then some (.jinf true, t.drop 9)
      else parseNumber t

/-- Object members after `{` (non-empty case): `"key" : value`, then `,`
to continue or `}` to finish. -/
def parseMembers : Nat → List Char → List (List Nat × JValue) →
    Option (JValue × List Char)
  | 0, _, _ => none
  | fuel + 1, t, acc =>
    match t with
    | '"' :: rest =>
      match parseStringRest (rest.length + 1) rest with
      | none => none
      | some (key, r1) =>
        match skipWs r1 with
        | ':' :: r2 =>
          match parseValue fuel r2 with
          | none => none
          | some (v, r3) =>
            match skipWs r3 with
            | ',' :: r4 => parseMembers fuel (skipWs r4) (acc ++ [(key, v)])
            | '}' :: r4 => some (.jobj (acc ++ [(key, v)]), r4)
            | _ => none
        | _ => none
    | _ => none

/-- Array elements after `[` (non-empty case). -/
def parseElems : Nat → List Char → List JValue → Option (JValue × List Char)
  | 0, _, _ => none
  | fuel + 1, t, acc =>
    match parseValue fuel t with
    | none => none
    | some (v, r1) =>
      match skipWs r1 with
      | ',' :: r2 => parseElems fuel r2 (acc ++ [v])
      | ']' :: r2 => some (.jarr (acc ++ [v]), r2)
      | _ => none

end

/-- `json.loads`: parse one value, then nothing but whitespace may remain
("Extra data" otherwise). -/
def json_loads (t : List Char) : Option JValue :=
  match parseValue (2 * t.length + 8) t with
  | some (v, rest) => if skipWs rest = [] then some v else none
  | none => none

/-- The error-message prefix of `_run_workflow`'s JSON-parse failure; the
cleaned text is appended verbatim. -/
def errPrefixText : List Char :=
  ("Failed to parse Dify outputs.text as JSON after removing <think> and unwrapping code fences.\nCleaned text was:\n").data

/-- Steps 1–3 of `_run_workflow` on a returned `outputs.text`: remove
`<think>` blocks, unwrap the first code fence, `json.loads` or a hard
error carrying the cleaned text. -/
def normalize_output_text (raw : List Char) : Except (List Char) JValue :=
  let cleaned := codeFenceUnwrap (thinkClean raw)
  match json_loads cleaned with
  | some v => Except.ok v
  | none => Except.error (errPrefixText ++ cleaned)


/-! ### SHA-1 and the derived criterion id (`dify_client.run_extraction_workflow`) -/

/-- Truncate to 32 bits. -/
def w32 (n : Nat) : Nat := n % 4294967296

/-- 32-bit left rotation (inputs are < 2^32, so the two parts occupy
disjoint bit ranges and addition is bitwise or). -/
def rotl32 (b n : Nat) : Nat := w32 (n * 2 ^ b) + n / 2 ^ (32 - b)

/-- 32-bit complement of a value < 2^32. -/
def not32 (n : Nat) : Nat := 4294967295 - n

/-- SHA-1 round function. -/
def sha1f (i b c d : Nat) : Nat :=
  if i < 20 then (b &&& c) ||| (not32 b &&& d)
  else if i < 40 then b ^^^ c ^^^ d
  else if i < 60 then (b &&& c) ||| (b &&& d) ||| (c &&& d)
  else b ^^^ c ^^^ d

/-- SHA-1 round constants. -/
def sha1k (i : Nat) : Nat :=
  if i < 20 then 0x5A827999
  else if i < 40 then 0x6ED9EBA1
  else if i < 60 then 0x8F1BBCDC
  else 0xCA62C1D6

/-- Big-endian 32-bit words from a 64-byte block. -/
def bytesToWords : List Nat → List Nat
  | b0 :: b1 :: b2 :: b3 :: rest =>
    (((b0 * 256 + b1) * 256 + b2) * 256 + b3) :: bytesToWords rest
  | _ => []

/-- Extend the 16 message words to 80. -/
def sha1expand : Nat → List Nat → List Nat
  | 0, w => w
  | n + 1, w =>
    sha1expand n (w ++ [rotl32 1 ((w.getD (w.length - 3) 0) ^^^ (w.getD (w.length - 8) 0)
      ^^^ (w.getD (w.length - 14) 0) ^^^ (w.getD (w.length - 16) 0))])

/-- One SHA-1 compression round. -/
def sha1round (st : Nat × Nat × Nat × Nat × Nat) (iw : Nat × Nat) :
    Nat × Nat × Nat × Nat × Nat :=
  let (a, b, c, d, e) := st
  let (i, wi) := iw
  (w32 (rotl32 5 a + sha1f i b c d + e + sha1k i + wi), a, rotl32 30 b, c, d)

/-- Process one 64-byte block. -/
def sha1block (h : Nat × Nat × Nat × Nat × Nat) (block : List Nat) :
    Nat × Nat × Nat × Nat × Nat :=
  let w := sha1expand 64 (bytesToWords block)
  let (a, b, c, d, e) := w.enum.foldl sha1round h
  (w32 (h.1 + a), w32 (h.2.1 + b), w32 (h.2.2.1 + c), w32 (h.2.2.2.1 + d),
    w32 (h.2.2.2.2 + e))

/-- 64-byte blocks of the padded message. -/
def blocks64 : Nat → List Nat → List (List Nat)
  | 0, _ => []
  | _ + 1, [] => []
  | fuel + 1, l => l.take 64 :: blocks64 fuel (l.drop 64)

/-- Big-endian length field (8 bytes) of the padding. -/
def lenBytes (n : Nat) : List Nat :=
  [n / 2 ^ 56 % 256, n / 2 ^ 48 % 256, n / 2 ^ 40 % 256, n / 2 ^ 32 % 256,
   n / 2 ^ 24 % 256, n / 2 ^ 16 % 256, n / 2 ^ 8 % 256, n % 256]

/-- SHA-1 padding: `0x80`, zeros to 56 mod 64, then the bit length. -/
def sha1pad (msg : List Nat) : List Nat :=
  msg ++ 0x80 :: List.replicate ((119 - msg.length % 64) % 64) 0
    ++ lenBytes (msg.length * 8)

/-- The five-word SHA-1 digest of a byte string. -/
def sha1digest (msg : List Nat) : Nat × Nat × Nat × Nat × Nat :=
  (blocks64 (msg.length + 9) (sha1pad msg)).foldl sha1block
    (0x67452301, 0xEFCDAB89, 0x98BADCFE, 0x10325476, 0xC3D2E1F0)

/-- Lower-case hex digit. -/
def hexDigit (n : Nat) : Char :=
  if n < 10 then Char.ofNat (48 + n) else Char.ofNat (87 + n)

/-- Eight hex digits of a 32-bit word. -/
def wordHex (n : Nat) : List Char :=
  [hexDigit (n / 2 ^ 28 % 16), hexDigit (n / 2 ^ 24 % 16), hexDigit (n / 2 ^ 20 % 16),
   hexDigit (n / 2 ^ 16 % 16), hexDigit (n / 2 ^ 12 % 16), hexDigit (n / 2 ^ 8 % 16),
   hexDigit (n / 2 ^ 4 % 16), hexDigit (n % 16)]

/-- `hashlib.sha1(...).hexdigest()`: 40 lower-case hex characters. -/
def sha1hex (msg : List Nat) : List Char :=
  let (a, b, c, d, e) := sha1digest msg
  wordHex a ++ wordHex b ++ wordHex c ++ wordHex d ++ wordHex e

/-- UTF-8 encoding of a code point (`str.encode("utf-8")`). -/
def utf8Char (u : Nat) : List Nat :=
  if u < 0x80 then [u]
  else if u < 0x800 then [0xC0 + u / 64, 0x80 + u % 64]
  else if u < 0x10000 then [0xE0 + u / 4096, 0x80 + u / 64 % 64, 0x80 + u % 64]
  else [0xF0 + u / 262144, 0x80 + u / 4096 % 64, 0x80 + u / 64 % 64, 0x80 + u % 64]

/-- UTF-8 encoding of a string. -/
def utf8Encode (s : List Char) : List Nat :=
  (s.map (fun c => utf8Char c.toNat)).flatten

/-- Code points of an ASCII key string. -/
def strCodes (s : List Char) : List Nat := s.map Char.toNat

/-- `models.Criterion` (pydantic).  String fields hold code-point
sequences as decoded from JSON; the optional extraction confidence is kept
as the parsed JSON number. -/
structure Criterion where
  criterion_id : List Nat
  requirement_summary : List Nat
  actionable_verb : List Nat
  target_of_action : List Nat
  legal_source : Option (List Nat)
  section_title : Option (List Nat)
  condition_trigger : Option (List Nat)
  keywords : List (List Nat)
  exception_conditions : List (List Nat)
  penalty_reference : Option (List Nat)
  certainty_score_LLM_extraction : Option JValue

/-- Python `dict` lookup on parsed JSON object members: the last
occurrence of a duplicated key wins. -/
def dictGet (kvs : List (List Nat × JValue)) (key : List Nat) : Option JValue :=
  (kvs.reverse.find? (fun kv => kv.1 == key)).map (fun kv => kv.2)

/-- The derived id `f"{section_id}-{chunk_index}-{digest}"` with
`digest = sha1(section_id + str(chunk_index) + text).hexdigest()[:16]`. -/
def deriveCriterionId (section_id : List Char) (chunk_index : Nat)
    (text : List Char) : List Char :=
  section_id ++ "-".data ++ (Nat.repr chunk_index).data ++ "-".data ++
    (sha1hex (utf8Encode (section_id ++ (Nat.repr chunk_index).data ++ text))).take 16

/-- The per-criterion fix-up of `run_extraction_workflow`: a falsy (empty)
`criterion_id` is replaced by the derived id. -/
def ensureCriterionId (section_id : List Char) (chunk_index : Nat)
    (text : List Char) (c : Criterion) : Criterion :=
  if c.criterion_id = [] then
    { c with criterion_id := strCodes (deriveCriterionId section_id chunk_index text) }
  else c

/-- The Dify-shape normalization of `run_extraction_workflow`: an object
is replaced by its `criteria` list, else its `items` list, else by `[]`;
then anything that is not a list is a hard error (its Python type name in
the message). -/
def jsonTypeName : JValue → List Char
  | .jnull => "NoneType".data
  | .jbool _ => "bool".data
  | .jnum _ _ f e => if f = none ∧ e = none then "int".data else "float".data
  | .jnan => "float".data
  | .jinf _ => "float".data
  | .jstr _ => "str".data
  | .jarr _ => "list".data
  | .jobj _ => "dict".data

/-- Shape coercion of one normalized extraction response. -/
def coerceExtractionData (data : JValue) : Except (List Char) (List JValue) :=
  match data with
  | .jobj kvs =>
    match dictGet kvs (strCodes "criteria".data) with
    | some (.jarr xs) => Except.ok xs
    | _ =>
      match dictGet kvs (strCodes "items".data) with
      | some (.jarr xs) => Except.ok xs
      | _ => Except.ok []
  | .jarr xs => Except.ok xs
  | v => Except.error ("Extraction workflow expected a list, got: ".data ++ jsonTypeName v)

/-- An optional string field for pydantic: absent and `null` give `none`. -/
def getOptStr (kvs : List (List Nat × JValue)) (key : List Char) :
    Option (Option (List Nat)) :=
  match dictGet kvs (strCodes key) with
  | none => some none
  | some .jnull => some none
  | some (.jstr s) => some (some s)
  | some _ => none

/-- A required string field. -/
def getReqStr (kvs : List (List Nat × JValue)) (key : List Char) :
    Option (List Nat) :=
  match dictGet kvs (strCodes key) with
  | some (.jstr s) => some s
  | _ => none

/-- A list-of-strings field with default `[]`. -/
def getStrList (kvs : List (List Nat × JValue)) (key : List Char) :
    Option (List (List Nat)) :=
  match dictGet kvs (strCodes key) with
  | none => some []
  | some (.jarr xs) =>
    xs.mapM (fun x => match x with | .jstr s => some s | _ => none)
  | some _ => none

/-- An optional numeric field. -/
def getOptNum (kvs : List (List Nat × JValue)) (key : List Char) :
    Option (Option JValue) :=
  match dictGet kvs (strCodes key) with
  | none => some none
  | some .jnull => some none
  | some (.jnum n i f e) => some (some (.jnum n i f e))
  | some .jnan => some (some .jnan)
  | some (.jinf n) => some (some (.jinf n))
  | some _ => none

/-- `Criterion(**item)` validation: required and optional fields as in
`models.Criterion`; anything other than an object fails. -/
def parseCriterion (v : JValue) : Option Criterion :=
  match v with
  | .jobj kvs =>
    match getReqStr kvs "criterion_id".data, getReqStr kvs "requirement_summary".data,
        getReqStr kvs "actionable_verb".data, getReqStr kvs "target_of_action".data with
    | some cid, some summary, some verb, some target =>
      match getOptStr kvs "legal_source".data, getOptStr kvs "section_title".data,
          getOptStr kvs "condition_trigger".data, getOptStr kvs "penalty_reference".data with
      | some ls, some st, some ct, some pr =>
        match getStrList kvs "keywords".data, getStrList kvs "exception_conditions".data,
            getOptNum kvs "certainty_score_LLM_extraction".data with
        | some kw, some exc, some cert =>
          some ⟨cid, summary, verb, target, ls, st, ct, kw, exc, pr, cert⟩
        | _, _, _ => none
      | _, _, _, _ => none
    | _, _, _, _ => none
  | _ => none

/-- The per-chunk body of `run_extraction_workflow`'s loop: coerce the
response shape; an empty list contributes nothing; otherwise every item
must validate as a `Criterion` (else a hard schema error), and each
criterion with a falsy id receives the derived id. -/
def processChunkResponse (section_id : List Char) (chunk_index : Nat)
    (text : List Char) (data : JValue) : Except (List Char) (List Criterion) :=
  match coerceExtractionData data with
  | Except.error e => Except.error e
  | Except.ok xs =>
    if xs.isEmpty then Except.ok []
    else
      match xs.mapM parseCriterion with
      | none => Except.error "Extraction result did not match Criterion schema".data
      | some cs => Except.ok (cs.map (ensureCriterionId section_id chunk_index text))

/-! ## Theorems -/

/-! ### Chunker lemmas -/

theorem pyStrip_eq_rdropWhile (l : List Char) :
    pyStrip l = List.rdropWhile pyIsSpace (l.dropWhile pyIsSpace) := rfl

theorem pyStrip_length_le (s : List Char) : (pyStrip s).length ≤ s.length := by
  rw [pyStrip_eq_rdropWhile]
  calc (List.rdropWhile pyIsSpace (s.dropWhile pyIsSpace)).length
      ≤ (s.dropWhile pyIsSpace).length :=
        (List.rdropWhile_prefix _ _).sublist.length_le
    _ ≤ s.length := (List.dropWhile_suffix _).sublist.length_le

theorem dropWhile_eq_self_head {p : Char → Bool} {a : Char} {l : List Char}
    (h : List.dropWhile p (a :: l) = a :: l) : ¬ p a := by
  intro hpa
  rw [List.dropWhile_cons, if_pos hpa] at h
  have hlen := congrArg List.length h
  have hle := (List.dropWhile_suffix (l := l) p).sublist.length_le
  simp only [List.length_cons] at hlen
  omega

theorem dropWhile_pyStrip (s : List Char) :
    (pyStrip s).dropWhile pyIsSpace = pyStrip s := by
  rcases hz : pyStrip s with _ | ⟨a, t⟩
  · rfl
  · have hy : List.dropWhile pyIsSpace (s.dropWhile pyIsSpace) = s.dropWhile pyIsSpace :=
      List.dropWhile_idempotent _ _
    have hpre : (a :: t) <+: s.dropWhile pyIsSpace := by
      rw [← hz, pyStrip_eq_rdropWhile]
      exact List.rdropWhile_prefix _ _
    obtain ⟨r, hr⟩ := hpre
    have hcons : s.dropWhile pyIsSpace = a :: (t ++ r) := by rw [← hr]; simp
    have hna : ¬ pyIsSpace a := by
      apply dropWhile_eq_self_head (l := t ++ r)
      rw [← hcons]
      exact hy
    simp [List.dropWhile_cons, hna]

theorem pyStrip_idem (s : List Char) : pyStrip (pyStrip s) = pyStrip s := by
  rw [pyStrip_eq_rdropWhile (pyStrip s), dropWhile_pyStrip, pyStrip_eq_rdropWhile s,
    List.rdropWhile_idempotent]

theorem chunkSpansGo_mono {len m o : Nat} :
    ∀ {f f' start ps}, chunkSpansGo f len m o start = some ps → f ≤ f' →
      chunkSpansGo f' len m o start = some ps := by
  intro f
  induction f with
  | zero => intro f' start ps h _; simp [chunkSpansGo] at h
  | succ f ih =>
    intro f' start ps h hle
    obtain ⟨f', rfl⟩ : ∃ g, f' = g + 1 := ⟨f' - 1, by omega⟩
    rw [chunkSpansGo] at h ⊢
    by_cases hs : start < len
    · rw [if_pos hs] at h ⊢
      by_cases he : len ≤ min (start + m) len
      · rw [if_pos he] at h ⊢; exact h
      · rw [if_neg he] at h ⊢
        rcases hrec : chunkSpansGo f len m o (min (start + m) len - o) with _ | ps'
        · rw [hrec] at h; cases h
        · rw [hrec] at h
          rw [ih hrec (by omega)]
          exact h
    · rw [if_neg hs] at h ⊢; exact h

theorem chunkSpansGo_isSome (len m o : Nat) (hmo : o < m) :
    ∀ (f start : Nat), len - start < f →
      ∃ ps, chunkSpansGo f len m o start = some ps := by
  intro f
  induction f with
  | zero => intro start h; omega
  | succ f ih =>
    intro start hf
    rw [chunkSpansGo]
    by_cases hs : start < len
    · rw [if_pos hs]
      by_cases he : len ≤ min (start + m) len
      · rw [if_pos he]; exact ⟨_, rfl⟩
      · rw [if_neg he]
        have hmin : min (start + m) len = start + m := by omega
        obtain ⟨ps, hps⟩ := ih (min (start + m) len - o) (by omega)
        rw [hps]
        exact ⟨_, rfl⟩
    · rw [if_neg hs]; exact ⟨_, rfl⟩

theorem chunkSectionGo_eq_spans (s sid : List Char) (m o : Nat) :
    ∀ (f start idx : Nat),
      chunkSectionGo f s sid m o start idx =
        Option.map (fun ps => (ps.enumFrom idx).map
          (fun ki => Chunk.mk sid ki.1 (pyStrip (pySlice s ki.2.1 ki.2.2))))
          (chunkSpansGo f s.length m o start) := by
  intro f
  induction f with
  | zero => intro start idx; rfl
  | succ f ih =>
    intro start idx
    rw [chunkSectionGo, chunkSpansGo]
    by_cases hs : start < s.length
    · rw [if_pos hs, if_pos hs]
      by_cases he : s.length ≤ min (start + m) s.length
      · rw [if_pos he, if_pos he]
        simp [List.enumFrom]
      · rw [if_neg he, if_neg he]
        rcases hrec : chunkSpansGo f s.length m o (min (start + m) s.length - o) with _ | ps'
        · rw [ih _ (idx + 1), hrec]; rfl
        · rw [ih _ (idx + 1), hrec]
          simp [List.enumFrom]
    · rw [if_neg hs, if_neg hs]; rfl

theorem chunkSpansGo_head {f len m o start : Nat} {ps : List (Nat × Nat)}
    (h : chunkSpansGo f len m o start = some ps) (hs : start < len) :
    ∃ b tail, ps = (start, b) :: tail := by
  match f with
  | 0 => simp [chunkSpansGo] at h
  | f + 1 =>
    rw [chunkSpansGo, if_pos hs] at h
    by_cases he : len ≤ min (start + m) len
    · rw [if_pos he] at h
      exact ⟨_, _, (Option.some_injective _ h).symm⟩
    · rw [if_neg he] at h
      rcases hrec : chunkSpansGo f len m o (min (start + m) len - o) with _ | ps'
      · rw [hrec] at h; cases h
      · rw [hrec] at h
        exact ⟨_, _, (Option.some_injective _ h).symm⟩

theorem chunkSpansGo_bounds {len m o : Nat} :
    ∀ {f start ps}, chunkSpansGo f len m o start = some ps →
      ∀ p ∈ ps, p.1 ≤ p.2 ∧ p.2 ≤ p.1 + m ∧ p.2 ≤ len := by
  intro f
  induction f with
  | zero => intro start ps h; simp [chunkSpansGo] at h
  | succ f ih =>
    intro start ps h p hp
    rw [chunkSpansGo] at h
    by_cases hs : start < len
    · rw [if_pos hs] at h
      by_cases he : len ≤ min (start + m) len
      · rw [if_pos he] at h
        obtain rfl := Option.some_injective _ h
        simp only [List.mem_singleton] at hp
        subst hp
        constructor <;> [omega; constructor <;> omega]
      · rw [if_neg he] at h
        rcases hrec : chunkSpansGo f len m o (min (start + m) len - o) with _ | ps'
        · rw [hrec] at h; cases h
        · rw [hrec] at h
          obtain rfl := Option.some_injective _ h
          rcases List.mem_cons.mp hp with rfl | hp'
          · constructor <;> [omega; constructor <;> omega]
          · exact ih hrec p hp'
    · rw [if_neg hs] at h
      obtain rfl := Option.some_injective _ h
      simp at hp

theorem chunkSpansGo_length_bound {len m o : Nat} (hmo : o < m) :
    ∀ {f start ps}, chunkSpansGo f len m o start = some ps → start < len →
      (ps.length - 1) * (m - o) + start < len := by
  intro f
  induction f with
  | zero => intro start ps h _; simp [chunkSpansGo] at h
  | succ f ih =>
    intro start ps h hs
    rw [chunkSpansGo, if_pos hs] at h
    by_cases he : len ≤ min (start + m) len
    · rw [if_pos he] at h
      obtain rfl := Option.some_injective _ h
      simpa using hs
    · rw [if_neg he] at h
      rcases hrec : chunkSpansGo f len m o (min (start + m) len - o) with _ | ps'
      · rw [hrec] at h; cases h
      · rw [hrec] at h
        obtain rfl := Option.some_injective _ h
        have hmin : min (start + m) len = start + m := by omega
        have hs' : min (start + m) len - o < len := by omega
        have hbound := ih hrec hs'
        have hne : ps' ≠ [] := by
          obtain ⟨b, tail, rfl⟩ := chunkSpansGo_head hrec hs'
          simp
        rcases ps' with _ | ⟨q, tail⟩
        · exact absurd rfl hne
        · simp only [List.length_cons] at hbound ⊢
          have : (tail.length + 1 + 1 - 1) * (m - o) =
              (tail.length + 1 - 1) * (m - o) + (m - o) := by
            simp [Nat.succ_sub_one, Nat.succ_mul]
          omega

theorem pySlice_append_drop {s : List Char} {a b : Nat} (hab : a ≤ b)
    (hb : b ≤ s.length) : pySlice s a b ++ s.drop b = s.drop a := by
  unfold pySlice
  conv_rhs => rw [← List.take_append_drop b s]
  rw [List.drop_append_eq_append_drop]
  have hlen : (s.take b).length = b := by rw [List.length_take]; omega
  rw [hlen]
  have hz : a - b = 0 := by omega
  rw [hz, List.drop_zero]

theorem chunkSpansGo_cover {s : List Char} {m o : Nat} (hmo : o < m) :
    ∀ {f start ps}, chunkSpansGo f s.length m o start = some ps →
      joinNonOverlap s ps = s.drop start := by
  intro f
  induction f with
  | zero => intro start ps h; simp [chunkSpansGo] at h
  | succ f ih =>
    intro start ps h
    rw [chunkSpansGo] at h
    by_cases hs : start < s.length
    · rw [if_pos hs] at h
      by_cases he : s.length ≤ min (start + m) s.length
      · rw [if_pos he] at h
        obtain rfl := Option.some_injective _ h
        have : min (start + m) s.length = s.length := by omega
        rw [this, joinNonOverlap]
        unfold pySlice
        rw [List.take_length]
      · rw [if_neg he] at h
        rcases hrec : chunkSpansGo f s.length m o (min (start + m) s.length - o) with _ | ps'
        · rw [hrec] at h; cases h
        · rw [hrec] at h
          obtain rfl := Option.some_injective _ h
          have hmin : min (start + m) s.length = start + m := by omega
          have hs' : min (start + m) s.length - o < s.length := by omega
          obtain ⟨b, tail, rfl⟩ := chunkSpansGo_head hrec hs'
          rw [joinNonOverlap, ih hrec]
          exact pySlice_append_drop (by omega) (by omega)
    · rw [if_neg hs] at h
      obtain rfl := Option.some_injective _ h
      rw [joinNonOverlap]
      rw [List.drop_eq_nil_of_le (by omega)]

/-! ### Claim C2 -/

/-- C2: The claim states that for `overlap ≥ max_chars` the chunker fails
with a `ConfigurationError`.  The code contains no such validation at all:
(1) whenever `max_chars ≤ overlap` and the text extends past the first
window (`start + max_chars < len`), the loop in `chunk_section` never
terminates for any amount of fuel — it diverges instead of raising; and
(2) when the text fits in one window it silently returns that chunk. -/
theorem C2_chunk_section_no_configuration_error :
    (∀ (s sid : List Char) (m o : Nat), m ≤ o → ∀ (fuel start idx : Nat),
      start + m < s.length → chunkSectionGo fuel s sid m o start idx = none) ∧
    (∀ (s sid : List Char) (m o : Nat), m ≤ o → 0 < s.length → s.length ≤ m →
      chunk_section s sid m o = some [⟨sid, 0, pyStrip s⟩]) := by
  constructor
  · intro s sid m o hmo fuel
    induction fuel with
    | zero => intro start idx _; rfl
    | succ f ih =>
      intro start idx hlt
      rw [chunkSectionGo]
      have hs : start < s.length := by omega
      rw [if_pos hs]
      have hmin : min (start + m) s.length = start + m := by omega
      have he : ¬ s.length ≤ min (start + m) s.length := by omega
      rw [if_neg he]
      rw [ih (min (start + m) s.length - o) (idx + 1) (by omega)]
  · intro s sid m o _ hpos hle
    rw [chunk_section, chunkSectionGo]
    have hs : (0 : Nat) < s.length := hpos
    rw [if_pos hs]
    have hmin : min (0 + m) s.length = s.length := by omega
    have he : s.length ≤ min (0 + m) s.length := by omega
    rw [if_pos he]
    rw [hmin]
    unfold pySlice
    rw [List.take_length, List.drop_zero]

/-- Witness for C2 at concrete inputs: with `max_chars = overlap = 1` the
loop on `"ab"` returns nothing for any fuel, and on the one-window text
`"a"` it silently returns a chunk. -/
theorem C2_chunk_section_no_configuration_error_witness :
    (chunkSectionGo 5 "ab".data "s".data 1 1 0 0 = none) ∧
    (chunk_section "a".data "s".data 1 1 = some [⟨"s".data, 0, "a".data⟩]) := by
  have h := C2_chunk_section_no_configuration_error
  refine ⟨h.1 "ab".data "s".data 1 1 (by decide) 5 0 0 (by decide), ?_⟩
  rw [h.2 "a".data "s".data 1 1 (by decide) (by decide) (by decide)]
  decide

/-! ### Claim C7 -/

/-- C7: for `overlap < max_chars` the chunker terminates — with any fuel
beyond `len(text)` iterations the loop finishes, the number of emitted
chunks (one per loop iteration) is at most `len(text)/(max_chars-overlap) + 1`,
and every emitted chunk's text has length at most `max_chars`. -/
theorem C7_chunk_section_terminates_bounded (s sid : List Char) (m o : Nat)
    (hmo : o < m) :
    ∃ cs, chunk_section s sid m o = some cs ∧
      (∀ fuel, s.length < fuel → chunkSectionGo fuel s sid m o 0 0 = some cs) ∧
      cs.length ≤ s.length / (m - o) + 1 ∧
      ∀ c ∈ cs, c.text.length ≤ m := by
  obtain ⟨ps, hps⟩ := chunkSpansGo_isSome s.length m o hmo (s.length + 1) 0 (by omega)
  refine ⟨(ps.enumFrom 0).map
      (fun ki => Chunk.mk sid ki.1 (pyStrip (pySlice s ki.2.1 ki.2.2))), ?_, ?_, ?_, ?_⟩
  · rw [chunk_section, chunkSectionGo_eq_spans, hps]
    rfl
  · intro fuel hf
    have hmono := chunkSpansGo_mono hps (show s.length + 1 ≤ fuel by omega)
    rw [chunkSectionGo_eq_spans, hmono]
    rfl
  · have hlen : ((ps.enumFrom 0).map
        (fun ki => Chunk.mk sid ki.1 (pyStrip (pySlice s ki.2.1 ki.2.2)))).length
        = ps.length := by simp
    rw [hlen]
    by_cases h0 : 0 < s.length
    · have hb := chunkSpansGo_length_bound hmo hps h0
      have hstep : 0 < m - o := by omega
      have h1 : (ps.length - 1) * (m - o) ≤ s.length := by omega
      have h2 : ps.length - 1 ≤ s.length / (m - o) :=
        (Nat.le_div_iff_mul_le hstep).mpr h1
      omega
    · have hlen0 : s.length = 0 := by omega
      rw [hlen0] at hps
      rw [chunkSpansGo] at hps
      rw [if_neg (by omega : ¬ (0:Nat) < 0)] at hps
      have hnil : ([] : List (Nat × Nat)) = ps := Option.some_injective _ hps
      rw [← hnil]
      simp
  · intro c hc
    obtain ⟨ki, hki, rfl⟩ := List.mem_map.mp hc
    have hmem : ki.2 ∈ ps := by
      have h3 : ki.2 ∈ (ps.enumFrom 0).map Prod.snd := List.mem_map_of_mem _ hki
      rwa [List.enumFrom_map_snd] at h3
    obtain ⟨h4, h5, h6⟩ := chunkSpansGo_bounds hps ki.2 hmem
    calc (pyStrip (pySlice s ki.2.1 ki.2.2)).length
        ≤ (pySlice s ki.2.1 ki.2.2).length := pyStrip_length_le _
      _ ≤ m := by
          unfold pySlice
          rw [List.length_drop, List.length_take]
          omega

/-- Witness for C7: `"hello world"` with `max_chars = 4`, `overlap = 1`. -/
theorem C7_chunk_section_terminates_bounded_witness :
    (1 : Nat) < 4 ∧
    ∃ cs, chunk_section "hello world".data "s".data 4 1 = some cs ∧
      (∀ fuel, "hello world".data.length < fuel →
        chunkSectionGo fuel "hello world".data "s".data 4 1 0 0 = some cs) ∧
      cs.length ≤ "hello world".data.length / (4 - 1) + 1 ∧
      ∀ c ∈ cs, c.text.length ≤ 4 :=
  ⟨by decide, C7_chunk_section_terminates_bounded "hello world".data "s".data 4 1 (by decide)⟩

/-! ### Claim C9 -/

/-- C9 counterexample: the claim states that an empty-after-trimming final
chunk is dropped (and that all other chunks are non-empty after trimming).
On the all-whitespace text `"    "` with `max_chars = 2, overlap = 0` the
code emits two chunks whose texts are both empty after trimming — the final
empty chunk is emitted, not dropped, and a non-final chunk is empty too. -/
theorem C9_counterexample_empty_chunks_emitted :
    chunk_section "    ".data "s".data 2 0 =
      some [⟨"s".data, 0, []⟩, ⟨"s".data, 1, []⟩] := by decide

/-- C9 amended: every emitted chunk's text is whitespace-trimmed (stripping
it again changes nothing), and chunks are emitted regardless of whether
their trimmed text is empty: the number of emitted chunks depends only on
the text's length, never on its content. -/
theorem C9_amended_trimmed_chunks_always_emitted (s sid : List Char) (m o : Nat)
    (hmo : o < m) :
    ∃ cs, chunk_section s sid m o = some cs ∧
      (∀ c ∈ cs, pyStrip c.text = c.text) ∧
      (∀ s' : List Char, s'.length = s.length →
        ∃ cs', chunk_section s' sid m o = some cs' ∧ cs'.length = cs.length) := by
  obtain ⟨ps, hps⟩ := chunkSpansGo_isSome s.length m o hmo (s.length + 1) 0 (by omega)
  refine ⟨(ps.enumFrom 0).map
      (fun ki => Chunk.mk sid ki.1 (pyStrip (pySlice s ki.2.1 ki.2.2))), ?_, ?_, ?_⟩
  · rw [chunk_section, chunkSectionGo_eq_spans, hps]
    rfl
  · intro c hc
    obtain ⟨ki, _, rfl⟩ := List.mem_map.mp hc
    exact pyStrip_idem _
  · intro s' hlen
    refine ⟨(ps.enumFrom 0).map
        (fun ki => Chunk.mk sid ki.1 (pyStrip (pySlice s' ki.2.1 ki.2.2))), ?_, by simp⟩
    rw [chunk_section, hlen, chunkSectionGo_eq_spans, hlen, hps]
    rfl

/-- Witness for C9 amended at `"a b "`, `max_chars = 3`, `overlap = 1`. -/
theorem C9_amended_trimmed_chunks_always_emitted_witness :
    (1 : Nat) < 3 ∧
    ∃ cs, chunk_section "a b ".data "s".data 3 1 = some cs ∧
      (∀ c ∈ cs, pyStrip c.text = c.text) ∧
      (∀ s' : List Char, s'.length = "a b ".data.length →
        ∃ cs', chunk_section s' "s".data 3 1 = some cs' ∧ cs'.length = cs.length) :=
  ⟨by decide, C9_amended_trimmed_chunks_always_emitted "a b ".data "s".data 3 1 (by decide)⟩

/-! ### Claim C10 -/

/-- C10: for `overlap < max_chars`, the chunks are exactly the trimmed
window slices, and concatenating each window's non-overlap portion (up to
the next window's start; the last window whole) reconstructs the input text
— every character is covered exactly once when the overlap is subtracted. -/
theorem C10_nonoverlap_portions_reconstruct (s sid : List Char) (m o : Nat)
    (hmo : o < m) :
    ∃ ps cs, chunkSpans s.length m o = some ps ∧
      chunk_section s sid m o = some cs ∧
      cs = (ps.enumFrom 0).map
        (fun ki => Chunk.mk sid ki.1 (pyStrip (pySlice s ki.2.1 ki.2.2))) ∧
      joinNonOverlap s ps = s := by
  obtain ⟨ps, hps⟩ := chunkSpansGo_isSome s.length m o hmo (s.length + 1) 0 (by omega)
  refine ⟨ps, _, hps, ?_, rfl, ?_⟩
  · rw [chunk_section, chunkSectionGo_eq_spans, hps]
    rfl
  · have h := chunkSpansGo_cover hmo hps
    rwa [List.drop_zero] at h

/-- Witness for C10 at `"abcdefgh"`, `max_chars = 4`, `overlap = 2`. -/
theorem C10_nonoverlap_portions_reconstruct_witness :
    (2 : Nat) < 4 ∧
    ∃ ps cs, chunkSpans "abcdefgh".data.length 4 2 = some ps ∧
      chunk_section "abcdefgh".data "s".data 4 2 = some cs ∧
      cs = (ps.enumFrom 0).map
        (fun ki => Chunk.mk "s".data ki.1 (pyStrip (pySlice "abcdefgh".data ki.2.1 ki.2.2))) ∧
      joinNonOverlap "abcdefgh".data ps = "abcdefgh".data :=
  ⟨by decide, C10_nonoverlap_portions_reconstruct "abcdefgh".data "s".data 4 2 (by decide)⟩


/-! ### Aggregator lemmas -/

theorem pyMaxBy_mem {α : Type} (key : α → ℚ) :
    ∀ (t : List α) (a : α), pyMaxBy key a t ∈ a :: t := by
  intro t
  induction t with
  | nil => intro a; simp [pyMaxBy]
  | cons b t ih =>
    intro a
    have hfold : pyMaxBy key a (b :: t)
        = pyMaxBy key (if key a < key b then b else a) t := rfl
    by_cases hab : key a < key b
    · rw [hfold, if_pos hab]
      rcases List.mem_cons.mp (ih b) with h | h
      · simp [h]
      · simp [h]
    · rw [hfold, if_neg hab]
      rcases List.mem_cons.mp (ih a) with h | h
      · simp [h]
      · simp [h]

theorem pyMaxBy_le {α : Type} (key : α → ℚ) :
    ∀ (t : List α) (a : α), ∀ x ∈ a :: t, key x ≤ key (pyMaxBy key a t) := by
  intro t
  induction t with
  | nil => intro a x hx; simp at hx; simp [pyMaxBy, hx]
  | cons b t ih =>
    intro a x hx
    have hfold : pyMaxBy key a (b :: t)
        = pyMaxBy key (if key a < key b then b else a) t := rfl
    by_cases hab : key a < key b
    · rw [hfold, if_pos hab]
      rcases List.mem_cons.mp hx with rfl | h1
      · exact le_of_lt (lt_of_lt_of_le hab (ih b b (List.mem_cons_self _ _)))
      · rcases List.mem_cons.mp h1 with rfl | h2
        · exact ih x x (List.mem_cons_self _ _)
        · exact ih b x (List.mem_cons_of_mem _ h2)
    · rw [hfold, if_neg hab]
      rcases List.mem_cons.mp hx with rfl | h1
      · exact ih x x (List.mem_cons_self _ _)
      · rcases List.mem_cons.mp h1 with rfl | h2
        · exact le_trans (not_lt.mp hab) (ih a a (List.mem_cons_self _ _))
        · exact ih a x (List.mem_cons_of_mem _ h2)

theorem pyMaxBy_first {α : Type} (key : α → ℚ) :
    ∀ (t : List α) (a : α), ∃ l₁ l₂, a :: t = l₁ ++ pyMaxBy key a t :: l₂ ∧
      ∀ x ∈ l₁, key x < key (pyMaxBy key a t) := by
  intro t
  induction t with
  | nil => intro a; exact ⟨[], [], by simp [pyMaxBy], by simp⟩
  | cons b t ih =>
    intro a
    by_cases hab : key a < key b
    · obtain ⟨l₁, l₂, hdec, hlt⟩ := ih b
      have hfold : pyMaxBy key a (b :: t) = pyMaxBy key b t := by
        show pyMaxBy key (if key a < key b then b else a) t = _
        rw [if_pos hab]
      refine ⟨a :: l₁, l₂, ?_, ?_⟩
      · rw [hfold, List.cons_append, ← hdec]
      · intro x hx
        rw [hfold]
        rcases List.mem_cons.mp hx with rfl | h2
        · exact lt_of_lt_of_le hab (pyMaxBy_le key t b b (List.mem_cons_self _ _))
        · exact hlt x h2
    · obtain ⟨l₁, l₂, hdec, hlt⟩ := ih a
      have hfold : pyMaxBy key a (b :: t) = pyMaxBy key a t := by
        show pyMaxBy key (if key a < key b then b else a) t = _
        rw [if_neg hab]
      rcases l₁ with _ | ⟨a₀, l₁'⟩
      · simp only [List.nil_append] at hdec
        have ha : pyMaxBy key a t = a := by
          injection hdec with h1 _
          exact h1.symm
        refine ⟨[], b :: t, ?_, by simp⟩
        rw [List.nil_append, hfold, ha]
      · rw [List.cons_append] at hdec
        injection hdec with h1 h2
        refine ⟨a :: b :: l₁', l₂, ?_, ?_⟩
        · rw [hfold]
          simp only [List.cons_append]
          rw [← h2]
        · intro x hx
          rw [hfold]
          have hmax : key a < key (pyMaxBy key a t) := by
            have h3 := hlt a₀ (List.mem_cons_self _ _)
            rwa [← h1] at h3
          rcases List.mem_cons.mp hx with rfl | h3
          · exact hmax
          · rcases List.mem_cons.mp h3 with rfl | h4
            · exact lt_of_le_of_lt (not_lt.mp hab) hmax
            · exact hlt x (List.mem_cons_of_mem _ h4)

theorem find?_append_of_none {α : Type} (p : α → Bool) :
    ∀ (l₁ l₂ : List α), (∀ x ∈ l₁, p x = false) →
      List.find? p (l₁ ++ l₂) = List.find? p l₂ := by
  intro l₁
  induction l₁ with
  | nil => intro l₂ _; rfl
  | cons a t ih =>
    intro l₂ h
    rw [List.cons_append, List.find?_cons_of_neg _ (by simp [h a (by simp)]),
      ih l₂ (fun x hx => h x (by simp [hx]))]

theorem specFirstMax_eq_pyMaxBy (a : ComplianceResult) (t : List ComplianceResult) :
    specFirstMax (a :: t) = some (pyMaxBy (fun x => x.confidence_score) a t) := by
  obtain ⟨l₁, l₂, hdec, hlt⟩ := pyMaxBy_first (fun x : ComplianceResult => x.confidence_score) t a
  have hle := pyMaxBy_le (fun x : ComplianceResult => x.confidence_score) t a
  have hmem := pyMaxBy_mem (fun x : ComplianceResult => x.confidence_score) t a
  rw [specFirstMax]
  conv_lhs => rw [hdec]
  rw [find?_append_of_none _ l₁ _ ?_]
  · rw [List.find?_cons_of_pos]
    simp only [List.all_eq_true, decide_eq_true_eq]
    intro y hy
    rw [← hdec] at hy
    exact hle y hy
  · intro x hx
    simp only [List.all_eq_false]
    refine ⟨pyMaxBy (fun x : ComplianceResult => x.confidence_score) a t, ?_, ?_⟩
    · rw [← hdec]
      exact hmem
    · simpa using not_le.mpr (hlt x hx)

/-! ### Claim C1 -/

/-- C1: the aggregation policy of `_aggregate_results`.  On `[]` it returns
the synthetic UNCERTAIN / 0.0 / flagged result.  Otherwise it returns the
earliest highest-confidence result among those whose upper-cased status is
COMPLIANT; if none, among those whose upper-cased status is NON_COMPLIANT;
if none, among the whole input — where `specFirstMax` (written from the
spec's words) picks the earliest element attaining the maximal confidence,
so every tie is resolved in favor of the earliest occurrence; such a pick
always exists on a non-empty candidate list. -/
theorem C1_aggregate_results_policy (rs : List ComplianceResult) :
    (rs = [] →
      (aggregate_results rs).compliance_status = "UNCERTAIN".data ∧
      (aggregate_results rs).confidence_score = 0 ∧
      (aggregate_results rs).flag_for_human_review = true) ∧
    (∀ r, specFirstMax (rs.filter (statusIs "COMPLIANT".data)) = some r →
      aggregate_results rs = r) ∧
    (rs.filter (statusIs "COMPLIANT".data) = [] →
      ∀ r, specFirstMax (rs.filter (statusIs "NON_COMPLIANT".data)) = some r →
        aggregate_results rs = r) ∧
    (rs.filter (statusIs "COMPLIANT".data) = [] →
      rs.filter (statusIs "NON_COMPLIANT".data) = [] →
      ∀ r, specFirstMax rs = some r → aggregate_results rs = r) ∧
    (rs ≠ [] → ∃ r, specFirstMax rs = some r) := by
  refine ⟨?_, ?_, ?_, ?_, ?_⟩
  · rintro rfl
    exact ⟨rfl, rfl, rfl⟩
  · intro r hr
    rcases rs with _ | ⟨r0, rs'⟩
    · simp [specFirstMax] at hr
    · rcases hC : (r0 :: rs').filter (statusIs "COMPLIANT".data) with _ | ⟨c, cs⟩
      · rw [hC] at hr
        simp [specFirstMax] at hr
      · rw [hC, specFirstMax_eq_pyMaxBy] at hr
        simp only [aggregate_results]
        rw [hC]
        exact Option.some_injective _ hr
  · intro hC r hr
    rcases rs with _ | ⟨r0, rs'⟩
    · simp [specFirstMax] at hr
    · rcases hN : (r0 :: rs').filter (statusIs "NON_COMPLIANT".data) with _ | ⟨c, cs⟩
      · rw [hN] at hr
        simp [specFirstMax] at hr
      · rw [hN, specFirstMax_eq_pyMaxBy] at hr
        simp only [aggregate_results]
        rw [hC, hN]
        exact Option.some_injective _ hr
  · intro hC hN r hr
    rcases rs with _ | ⟨r0, rs'⟩
    · simp [specFirstMax] at hr
    · rw [specFirstMax_eq_pyMaxBy] at hr
      simp only [aggregate_results]
      rw [hC, hN]
      exact Option.some_injective _ hr
  · intro hne
    rcases rs with _ | ⟨r0, rs'⟩
    · exact absurd rfl hne
    · exact ⟨_, specFirstMax_eq_pyMaxBy r0 rs'⟩

/-- Witness for C1 on the spec's own vector
`[NON_COMPLIANT@9, compliant@3, COMPLIANT@7]` (the second status lower-case
to exercise the upper-casing): the aggregator returns the `COMPLIANT@7`
result. -/
theorem C1_aggregate_results_policy_witness :
    aggregate_results
      [⟨"c1".data, "NON_COMPLIANT".data, 9, [], [], false⟩,
       ⟨"c1".data, "compliant".data, 3, [], [], false⟩,
       ⟨"c1".data, "COMPLIANT".data, 7, [], [], true⟩] =
      ⟨"c1".data, "COMPLIANT".data, 7, [], [], true⟩ :=
  (C1_aggregate_results_policy _).2.1 _ (by decide)


/-! ### Batcher lemmas -/

theorem dropWhile_replicate_neg {p : Char → Bool} {a : Char} (h : p a = false)
    (n : Nat) : (List.replicate n a).dropWhile p = List.replicate n a := by
  cases n with
  | zero => rfl
  | succ k => simp [List.replicate_succ, List.dropWhile_cons, h]

theorem pyStrip_replicate {c : Char} (h : pyIsSpace c = false) (n : Nat) :
    pyStrip (List.replicate n c) = List.replicate n c := by
  unfold pyStrip
  rw [dropWhile_replicate_neg h, List.reverse_replicate, dropWhile_replicate_neg h,
    List.reverse_replicate]

theorem go_skip {m i n : Nat} {rec : RetrievalRecord} {rest : List RetrievalRecord}
    {b : List (List (List Char))} {cur : List (List Char)} (h : recText rec = []) :
    makeBatchesPiecesGo m (rec :: rest) i b cur n
      = makeBatchesPiecesGo m rest (i + 1) b cur n := by
  rw [makeBatchesPiecesGo]
  simp [h]

theorem go_flush {m i n : Nat} {rec : RetrievalRecord} {rest : List RetrievalRecord}
    {b : List (List (List Char))} {cur : List (List Char)} (h1 : recText rec ≠ [])
    (h2 : m < n + (mkPiece i (recText rec)).length) (h3 : cur ≠ []) :
    makeBatchesPiecesGo m (rec :: rest) i b cur n
      = makeBatchesPiecesGo m rest (i + 1) (b ++ [cur]) [mkPiece i (recText rec)]
          (mkPiece i (recText rec)).length := by
  rw [makeBatchesPiecesGo]
  simp [h1, h2, h3]

theorem go_append {m i n : Nat} {rec : RetrievalRecord} {rest : List RetrievalRecord}
    {b : List (List (List Char))} {cur : List (List Char)} (h1 : recText rec ≠ [])
    (h2 : ¬ (m < n + (mkPiece i (recText rec)).length ∧ cur ≠ [])) :
    makeBatchesPiecesGo m (rec :: rest) i b cur n
      = makeBatchesPiecesGo m rest (i + 1) b (cur ++ [mkPiece i (recText rec)])
          (n + (mkPiece i (recText rec)).length) := by
  rw [makeBatchesPiecesGo]
  simp [h1, if_neg h2]

theorem makeBatchesPiecesGo_flatten (m : Nat) :
    ∀ (recs : List RetrievalRecord) (i : Nat) (batches : List (List (List Char)))
      (cur : List (List Char)) (n : Nat),
      (makeBatchesPiecesGo m recs i batches cur n).flatten
        = batches.flatten ++ cur ++ fragmentPieces recs i := by
  intro recs
  induction recs with
  | nil =>
    intro i batches cur n
    rw [makeBatchesPiecesGo, fragmentPieces]
    by_cases hc : cur = []
    · rw [if_pos hc, hc]
      simp
    · rw [if_neg hc]
      simp
  | cons rec rest ih =>
    intro i batches cur n
    by_cases he : recText rec = []
    · rw [go_skip he, ih, fragmentPieces, if_pos he]
    · by_cases hf : m < n + (mkPiece i (recText rec)).length ∧ cur ≠ []
      · rw [go_flush he hf.1 hf.2, ih, fragmentPieces, if_neg he]
        simp
      · rw [go_append he hf, ih, fragmentPieces, if_neg he]
        simp

theorem makeBatchesPiecesGo_sizes (m : Nat) :
    ∀ (recs : List RetrievalRecord) (i : Nat) (batches : List (List (List Char)))
      (cur : List (List Char)) (n : Nat),
      (∀ b ∈ batches, b ≠ [] ∧
        ((b.map List.length).sum ≤ m ∨ ∃ p, b = [p] ∧ m < p.length)) →
      n = (cur.map List.length).sum →
      (cur = [] ∨ (cur.map List.length).sum ≤ m ∨ ∃ p, cur = [p] ∧ m < p.length) →
      ∀ b ∈ makeBatchesPiecesGo m recs i batches cur n,
        b ≠ [] ∧ ((b.map List.length).sum ≤ m ∨ ∃ p, b = [p] ∧ m < p.length) := by
  intro recs
  induction recs with
  | nil =>
    intro i batches cur n hb hn hcur b hmem
    rw [makeBatchesPiecesGo] at hmem
    by_cases hc : cur = []
    · rw [if_pos hc] at hmem
      exact hb b hmem
    · rw [if_neg hc] at hmem
      rcases List.mem_append.mp hmem with h | h
      · exact hb b h
      · rcases List.mem_singleton.mp h with rfl
        rcases hcur with h1 | h2
        · exact absurd h1 hc
        · exact ⟨hc, h2⟩
  | cons rec rest ih =>
    intro i batches cur n hb hn hcur b hmem
    by_cases he : recText rec = []
    · rw [go_skip he] at hmem
      exact ih (i + 1) batches cur n hb hn hcur b hmem
    · by_cases hf : m < n + (mkPiece i (recText rec)).length ∧ cur ≠ []
      · rw [go_flush he hf.1 hf.2] at hmem
        refine ih (i + 1) _ _ _ ?_ (by simp) ?_ b hmem
        · intro b' hb'
          rcases List.mem_append.mp hb' with h | h
          · exact hb b' h
          · rcases List.mem_singleton.mp h with rfl
            rcases hcur with h1 | h2
            · exact absurd h1 hf.2
            · exact ⟨hf.2, h2⟩
        · by_cases hpm : (mkPiece i (recText rec)).length ≤ m
          · right; left; simpa using hpm
          · right; right; exact ⟨_, rfl, by omega⟩
      · rw [go_append he hf] at hmem
        refine ih (i + 1) _ _ _ hb (by simp [hn]) ?_ b hmem
        rcases not_and_or.mp hf with h1 | h2
        · right; left
          simp only [List.map_append, List.sum_append]
          simp only [not_lt] at h1
          simp only [List.map_cons, List.map_nil, List.sum_cons, List.sum_nil]
          omega
        · simp only [not_not] at h2
          subst h2
          right
          by_cases hpm : (mkPiece i (recText rec)).length ≤ m
          · left; simpa using hpm
          · right; exact ⟨_, rfl, by omega⟩

theorem mkPiece_length (i : Nat) (txt : List Char) :
    (mkPiece i txt).length = 31 + (Nat.repr i).data.length + txt.length := by
  simp [mkPiece, SEP, chunkHeader, List.length_append]
  omega

/-! ### Claim C3 -/

/-- C3: the evidence batcher.  (i) Concatenating all batches (at piece
granularity) yields exactly the formatted pieces of the fragments with
non-empty stripped text, in input order, each with its positional
`[chunk:i]` header — so every non-empty fragment lands in exactly one
batch and empty fragments are skipped; the emitted strings are the
piece-batches each joined.  (ii) A batch never exceeds the budget except
when it consists of a single piece that alone exceeds it (emitted whole).
(iii) Three 30000-char fragments under budget 80000 give exactly two
batches, fragments 1–2 then fragment 3. -/
theorem C3_make_batches_guarantees :
    (∀ (records : List RetrievalRecord) (m : Nat),
      (makeBatchesPieces records m).flatten = fragmentPieces records 0 ∧
      make_batches_from_records records m
        = (makeBatchesPieces records m).map List.flatten ∧
      ∀ b ∈ makeBatchesPieces records m,
        b ≠ [] ∧ ((b.map List.length).sum ≤ m ∨ ∃ p, b = [p] ∧ m < p.length)) ∧
    make_batches_from_records
        (List.replicate 3 ⟨some ⟨some (List.replicate 30000 'a')⟩⟩) 80000 =
      [mkPiece 0 (List.replicate 30000 'a') ++ mkPiece 1 (List.replicate 30000 'a'),
       mkPiece 2 (List.replicate 30000 'a')] := by
  constructor
  · intro records m
    refine ⟨?_, rfl, ?_⟩
    · rw [makeBatchesPieces, makeBatchesPiecesGo_flatten]
      simp
    · intro b hb
      exact makeBatchesPiecesGo_sizes m records 0 [] [] 0 (by simp) (by simp)
        (Or.inl rfl) b hb
  · set t : List Char := List.replicate 30000 'a' with ht
    set rec : RetrievalRecord := ⟨some ⟨some t⟩⟩ with hrec
    have htext : recText rec = t := by
      rw [hrec, recText]
      exact pyStrip_replicate (by decide) 30000
    have htne : recText rec ≠ [] := by
      rw [htext, ht]
      have h30 : (List.replicate 30000 'a').length = 30000 := by
        rw [List.length_replicate]
      intro hnil
      rw [hnil] at h30
      simp at h30
    have hlen : ∀ i : Nat, i < 10 → (mkPiece i (recText rec)).length = 30032 := by
      intro i hi
      rw [htext, mkPiece_length, ht, List.length_replicate]
      interval_cases i <;> decide
    have h3 : List.replicate 3 rec = [rec, rec, rec] := rfl
    rw [make_batches_from_records, makeBatchesPieces, h3]
    rw [go_append htne (by
      rw [hlen 0 (by omega)]
      intro h
      exact absurd rfl h.2)]
    rw [go_append htne (by
      rw [hlen 1 (by omega)]
      rw [hlen 0 (by omega)]
      intro h
      omega)]
    rw [go_flush htne (by rw [hlen 2 (by omega), hlen 0 (by omega), hlen 1 (by omega)]; omega)
      (by simp)]
    rw [makeBatchesPiecesGo]
    rw [if_neg (by simp)]
    simp only [htext, List.nil_append, List.map_cons, List.map_nil, List.flatten_cons,
      List.flatten_nil, List.append_nil, List.singleton_append, List.cons_append]

/-- Witness for C3: on one short fragment under budget 5, the single
emitted batch is the one over-budget piece, whole. -/
theorem C3_make_batches_guarantees_witness :
    [mkPiece 0 "hi".data] ≠ [] ∧
    (([mkPiece 0 "hi".data].map List.length).sum ≤ 5 ∨
      ∃ p, [mkPiece 0 "hi".data] = [p] ∧ 5 < p.length) :=
  (C3_make_batches_guarantees.1 [⟨some ⟨some "hi".data⟩⟩] 5).2.2
    [mkPiece 0 "hi".data] (by decide)



/-! ### Splitter lemmas -/

theorem pyStrip_eq_nil_iff (x : List Char) :
    pyStrip x = [] ↔ ∀ c ∈ x, pyIsSpace c := by
  rw [pyStrip_eq_rdropWhile, List.rdropWhile_eq_nil_iff]
  constructor
  · intro h c hc
    have hx : x.takeWhile pyIsSpace ++ x.dropWhile pyIsSpace = x :=
      List.takeWhile_append_dropWhile pyIsSpace x
    rw [← hx] at hc
    rcases List.mem_append.mp hc with h1 | h1
    · exact List.mem_takeWhile_imp h1
    · exact h c h1
  · intro h c hc
    exact h c ((List.dropWhile_suffix _).sublist.subset hc)

theorem pyStrip_append_ne {part : List Char} (h : pyStrip part ≠ [])
    (buf : List Char) : pyStrip (buf ++ ' ' :: part) ≠ [] := by
  intro hnil
  rw [pyStrip_eq_nil_iff] at hnil
  apply h
  rw [pyStrip_eq_nil_iff]
  intro c hc
  exact hnil c (by simp [hc])

theorem merge_foldl_inv :
    ∀ (parts : List (List Char)) (acc : List (List Char) × List Char),
      (∀ sec ∈ acc.1, sec ≠ [] ∧ pyStrip sec = sec) →
      (acc.2 = [] ∨ pyStrip acc.2 ≠ []) →
      (∀ sec ∈ (parts.foldl mergeStep acc).1, sec ≠ [] ∧ pyStrip sec = sec) ∧
      ((parts.foldl mergeStep acc).2 = [] ∨ pyStrip (parts.foldl mergeStep acc).2 ≠ []) := by
  intro parts
  induction parts with
  | nil => intro acc h1 h2; exact ⟨h1, h2⟩
  | cons part rest ih =>
    intro acc h1 h2
    rw [List.foldl_cons]
    by_cases hblank : pyStrip part = []
    · rw [mergeStep, if_pos hblank]
      exact ih acc h1 h2
    · rw [mergeStep, if_neg hblank]
      by_cases hhead : ("SECTION".data.isPrefixOf (pyStrip part)
          || "CHAPTER".data.isPrefixOf (pyStrip part)) || pyIsUpper part
      · rw [if_pos hhead]
        refine ih _ ?_ (Or.inr hblank)
        by_cases hbuf : acc.2 = []
        · rw [if_pos hbuf]
          exact h1
        · rw [if_neg hbuf]
          intro sec hsec
          rcases List.mem_append.mp hsec with h3 | h3
          · exact h1 sec h3
          · rcases List.mem_singleton.mp h3 with rfl
            rcases h2 with h4 | h4
            · exact absurd h4 hbuf
            · exact ⟨h4, pyStrip_idem _⟩
      · rw [if_neg hhead]
        exact ih _ h1 (Or.inr (pyStrip_append_ne hblank acc.2))

theorem chunkAllSections_eq_mapM :
    ∀ (sections : List (List Char)) (i m o : Nat),
      chunkAllSections sections i m o =
        (((sections.enumFrom i).mapM
          (fun ks => chunk_section ks.2 (sectionId (ks.1 + 1)) m o)).map
          List.flatten) := by
  intro sections
  induction sections with
  | nil => intro i m o; rfl
  | cons sec rest ih =>
    intro i m o
    rw [chunkAllSections, List.enumFrom_cons, List.mapM_cons]
    rcases hsec : chunk_section sec (sectionId (i + 1)) m o with _ | cs
    · simp [hsec]
    · rcases hrec : (rest.enumFrom (i + 1)).mapM
          (fun ks => chunk_section ks.2 (sectionId (ks.1 + 1)) m o) with _ | css
      · rw [ih (i + 1) m o, hrec]
        simp
      · rw [ih (i + 1) m o, hrec]
        simp

/-! ### Claim C8 -/

/-- C8 counterexample: the claim describes section splitting as starting a
new section exactly at heading lines, with earlier text kept in the running
buffer — predicting sections `["intro", "SECTION 1. foo"]` for the input
`"intro\nSECTION 1. foo"`.  Because the split pattern's capturing group
inserts the matched marker as an extra list element which the merge loop
then classifies as a heading of its own, the code instead produces a
spurious marker-only section: `["intro", "SECTION 1.", "SECTION 1. foo"]`. -/
theorem C8_counterexample_duplicate_heading_sections :
    split_into_sections "intro\nSECTION 1. foo".data =
      ["intro".data, "SECTION 1.".data, "SECTION 1. foo".data] ∧
    split_into_sections "intro\nSECTION 1. foo".data ≠
      ["intro".data, "SECTION 1. foo".data] := by
  constructor <;> decide

/-- C8 amended: splitting inserts, at every line start from which (after
skipping whitespace) one of the markers `SECTION <n>.`, `CHAPTER <n>`,
`<4+ digits>.`, or an upper-case letter followed by further upper-case or
whitespace characters matches, the captured marker text as an extra part
before the piece that still begins with the matched line; the merge loop
starts a new buffer at any part whose stripped text starts with
SECTION/CHAPTER or is upper-case (so each SECTION/CHAPTER heading yields a
spurious marker-only section), appends other parts with a separating space
and skips blank parts.  All resulting sections are non-empty and trimmed;
the i-th section (1-based) is chunked under section_id `section_<i>`, all
chunks concatenated in order; the entry point defaults are
`max_chars = 95000`, `overlap = 2500`. -/
theorem C8_amended_section_pipeline :
    (∀ text : List Char, ∀ sec ∈ split_into_sections text,
      sec ≠ [] ∧ pyStrip sec = sec) ∧
    (∀ (text : List Char) (m o : Nat),
      chunk_legal_text text m o =
        ((((split_into_sections text).enumFrom 0).mapM
          (fun ks => chunk_section ks.2 (sectionId (ks.1 + 1)) m o)).map
          List.flatten)) ∧
    (∀ text : List Char, chunk_legal_text_default text = chunk_legal_text text 95000 2500) := by
  refine ⟨?_, ?_, fun _ => rfl⟩
  · intro text sec hsec
    rw [split_into_sections] at hsec
    have hinv := merge_foldl_inv (buildParts text 0 (splitPoints text)) ([], [])
      (by simp) (Or.inl rfl)
    set acc := (buildParts text 0 (splitPoints text)).foldl mergeStep ([], []) with hacc
    by_cases hbuf : acc.2 = []
    · rw [if_pos hbuf] at hsec
      exact hinv.1 sec hsec
    · rw [if_neg hbuf] at hsec
      rcases List.mem_append.mp hsec with h3 | h3
      · exact hinv.1 sec h3
      · rcases List.mem_singleton.mp h3 with rfl
        rcases hinv.2 with h4 | h4
        · exact absurd h4 hbuf
        · exact ⟨h4, pyStrip_idem _⟩
  · intro text m o
    rw [chunk_legal_text, chunkAllSections_eq_mapM]

/-- Witness for C8 amended: the first section produced on
`"intro\nSECTION 1. foo"` is non-empty and trimmed. -/
theorem C8_amended_section_pipeline_witness :
    "intro".data ≠ [] ∧ pyStrip "intro".data = "intro".data :=
  C8_amended_section_pipeline.1 "intro\nSECTION 1. foo".data "intro".data (by decide)


/-! ### Claim C4 -/

/-- C4: the response normalizer removes every (leftmost, non-greedy,
case-insensitive, newline-spanning) `<think>…</think>` region, then keeps
only the first triple-backtick fenced block's inner content (optionally
`json`-tagged) when one exists, then parses with `json.loads`; success
returns exactly the parse of the cleaned text, and a parse failure is a
hard error whose message carries the cleaned text verbatim — malformed
JSON is never repaired.  The concrete conjuncts exercise each stage:
a stripped scratchpad, a multi-line mixed-case scratchpad plus fence,
first-fence-only extraction, and a non-JSON error surfacing the cleaned
text. -/
theorem C4_normalizer_pipeline :
    (∀ raw : List Char,
      (∀ v, normalize_output_text raw = Except.ok v ↔
        json_loads (codeFenceUnwrap (thinkClean raw)) = some v) ∧
      (∀ e, normalize_output_text raw = Except.error e →
        json_loads (codeFenceUnwrap (thinkClean raw)) = none ∧
        e = errPrefixText ++ codeFenceUnwrap (thinkClean raw)) ∧
      (json_loads (codeFenceUnwrap (thinkClean raw)) = none →
        normalize_output_text raw =
          Except.error (errPrefixText ++ codeFenceUnwrap (thinkClean raw)))) ∧
    normalize_output_text "<think>garbage</think>\x7b\"a\":1\x7d".data =
      Except.ok (.jobj [([97], .jnum false ['1'] none none)]) ∧
    normalize_output_text "<THINK>\nnoise\n</ThInK>```JSON\n\x7b\"a\": 1\x7d\n```".data =
      Except.ok (.jobj [([97], .jnum false ['1'] none none)]) ∧
    normalize_output_text "```1``` and ```2```".data =
      Except.ok (.jnum false ['1'] none none) ∧
    normalize_output_text "not json".data =
      Except.error (errPrefixText ++ "not json".data) := by
  refine ⟨?_, by rfl, by rfl, by rfl, by rfl⟩
  intro raw
  refine ⟨?_, ?_, ?_⟩
  · intro v
    rw [normalize_output_text]
    rcases h : json_loads (codeFenceUnwrap (thinkClean raw)) with _ | v'
    · simp
    · simp
  · intro e
    rw [normalize_output_text]
    rcases h : json_loads (codeFenceUnwrap (thinkClean raw)) with _ | v'
    · intro he
      simp only [Except.error.injEq] at he
      exact ⟨rfl, he.symm⟩
    · intro he
      cases he
  · intro h
    rw [normalize_output_text, h]

/-- Witness for C4: the error branch on cleaned text `x]`. -/
theorem C4_normalizer_pipeline_witness :
    normalize_output_text "<think>a</think>```x]```".data =
      Except.error (errPrefixText ++ "x]".data) :=
  (C4_normalizer_pipeline.1 "<think>a</think>```x]```".data).2.2 (by rfl)


/-! ### Claim C5 -/

/-- C5 counterexample: the claim says any response shape other than a bare
array or an object with a `criteria`/`items` array is a hard error for the
chunk.  An object with neither key is *not* an error: the code silently
replaces it by the empty list. -/
theorem C5_counterexample_object_coerced_to_empty :
    coerceExtractionData (.jobj [(strCodes "foo".data, .jnull)]) =
      Except.ok [] := rfl

/-- C5 amended: a bare array, an object with a `criteria` array, and an
object with an `items` array are accepted (the contained array becoming
the chunk's criterion list, with `criteria` taking precedence); any
*other object* is silently coerced to the empty list (no error); only a
non-object, non-array response is a hard error; and an empty accepted
list is valid, contributing no criteria. -/
theorem C5_amended_extraction_shapes :
    (∀ xs, coerceExtractionData (.jarr xs) = Except.ok xs) ∧
    (∀ kvs xs, dictGet kvs (strCodes "criteria".data) = some (.jarr xs) →
      coerceExtractionData (.jobj kvs) = Except.ok xs) ∧
    (∀ kvs xs, (∀ ys, dictGet kvs (strCodes "criteria".data) ≠ some (.jarr ys)) →
      dictGet kvs (strCodes "items".data) = some (.jarr xs) →
      coerceExtractionData (.jobj kvs) = Except.ok xs) ∧
    (∀ kvs, (∀ ys, dictGet kvs (strCodes "criteria".data) ≠ some (.jarr ys)) →
      (∀ ys, dictGet kvs (strCodes "items".data) ≠ some (.jarr ys)) →
      coerceExtractionData (.jobj kvs) = Except.ok []) ∧
    (∀ d, (∀ xs, d ≠ JValue.jarr xs) → (∀ kvs, d ≠ JValue.jobj kvs) →
      coerceExtractionData d =
        Except.error ("Extraction workflow expected a list, got: ".data ++ jsonTypeName d)) ∧
    (∀ (sid : List Char) (i : Nat) (t : List Char),
      processChunkResponse sid i t (.jarr []) = Except.ok []) := by
  refine ⟨fun xs => rfl, ?_, ?_, ?_, ?_, fun sid i t => rfl⟩
  · intro kvs xs h
    have hobj : coerceExtractionData (JValue.jobj kvs) =
        (match dictGet kvs (strCodes "criteria".data) with
         | some (JValue.jarr ys) => Except.ok ys
         | _ =>
           match dictGet kvs (strCodes "items".data) with
           | some (JValue.jarr ys) => Except.ok ys
           | _ => Except.ok []) := rfl
    rw [hobj]
    rw [h]
  · intro kvs xs h hIt
    have hobj : coerceExtractionData (JValue.jobj kvs) =
        (match dictGet kvs (strCodes "criteria".data) with
         | some (JValue.jarr ys) => Except.ok ys
         | _ =>
           match dictGet kvs (strCodes "items".data) with
           | some (JValue.jarr ys) => Except.ok ys
           | _ => Except.ok []) := rfl
    rw [hobj]
    rcases hd : dictGet kvs (strCodes "criteria".data) with _ | v
    · rw [hIt]
    · cases v with
      | jarr ys => exact absurd hd (h ys)
      | jnull => rw [hIt]
      | jbool b => rw [hIt]
      | jnum a b c d => rw [hIt]
      | jnan => rw [hIt]
      | jinf b => rw [hIt]
      | jstr s => rw [hIt]
      | jobj kvs1 => rw [hIt]
  · intro kvs h hIt
    have hobj : coerceExtractionData (JValue.jobj kvs) =
        (match dictGet kvs (strCodes "criteria".data) with
         | some (JValue.jarr ys) => Except.ok ys
         | _ =>
           match dictGet kvs (strCodes "items".data) with
           | some (JValue.jarr ys) => Except.ok ys
           | _ => Except.ok []) := rfl
    rw [hobj]
    rcases hd : dictGet kvs (strCodes "criteria".data) with _ | v
    · rcases hd2 : dictGet kvs (strCodes "items".data) with _ | v2
      · rfl
      · cases v2 with
        | jarr ys => exact absurd hd2 (hIt ys)
        | jnull => rfl
        | jbool b => rfl
        | jnum a b c d => rfl
        | jnan => rfl
        | jinf b => rfl
        | jstr s => rfl
        | jobj kvs2 => rfl
    · cases v with
      | jarr ys => exact absurd hd (h ys)
      | jnull =>
        rcases hd2 : dictGet kvs (strCodes "items".data) with _ | v2
        · rfl
        · cases v2 with
          | jarr ys => exact absurd hd2 (hIt ys)
          | jnull => rfl
          | jbool b => rfl
          | jnum a b c d => rfl
          | jnan => rfl
          | jinf b => rfl
          | jstr s => rfl
          | jobj kvs2 => rfl
      | jbool b =>
        rcases hd2 : dictGet kvs (strCodes "items".data) with _ | v2
        · rfl
        · cases v2 with
          | jarr ys => exact absurd hd2 (hIt ys)
          | jnull => rfl
          | jbool b => rfl
          | jnum a b c d => rfl
          | jnan => rfl
          | jinf b => rfl
          | jstr s => rfl
          | jobj kvs2 => rfl
      | jnum a b c d =>
        rcases hd2 : dictGet kvs (strCodes "items".data) with _ | v2
        · rfl
        · cases v2 with
          | jarr ys => exact absurd hd2 (hIt ys)
          | jnull => rfl
          | jbool b => rfl
          | jnum a b c d => rfl
          | jnan => rfl
          | jinf b => rfl
          | jstr s => rfl
          | jobj kvs2 => rfl
      | jnan =>
        rcases hd2 : dictGet kvs (strCodes "items".data) with _ | v2
        · rfl
        · cases v2 with
          | jarr ys => exact absurd hd2 (hIt ys)
          | jnull => rfl
          | jbool b => rfl
          | jnum a b c d => rfl
          | jnan => rfl
          | jinf b => rfl
          | jstr s => rfl
          | jobj kvs2 => rfl
      | jinf b =>
        rcases hd2 : dictGet kvs (strCodes "items".data) with _ | v2
        · rfl
        · cases v2 with
          | jarr ys => exact absurd hd2 (hIt ys)
          | jnull => rfl
          | jbool b => rfl
          | jnum a b c d => rfl
          | jnan => rfl
          | jinf b => rfl
          | jstr s => rfl
          | jobj kvs2 => rfl
      | jstr s =>
        rcases hd2 : dictGet kvs (strCodes "items".data) with _ | v2
        · rfl
        · cases v2 with
          | jarr ys => exact absurd hd2 (hIt ys)
          | jnull => rfl
          | jbool b => rfl
          | jnum a b c d => rfl
          | jnan => rfl
          | jinf b => rfl
          | jstr s => rfl
          | jobj kvs2 => rfl
      | jobj kvs1 =>
        rcases hd2 : dictGet kvs (strCodes "items".data) with _ | v2
        · rfl
        · cases v2 with
          | jarr ys => exact absurd hd2 (hIt ys)
          | jnull => rfl
          | jbool b => rfl
          | jnum a b c d => rfl
          | jnan => rfl
          | jinf b => rfl
          | jstr s => rfl
          | jobj kvs2 => rfl
  · intro d h1 h2
    cases d with
    | jarr xs => exact absurd rfl (h1 xs)
    | jobj kvs => exact absurd rfl (h2 kvs)
    | jnull => rfl
    | jbool b => rfl
    | jnum a b c d => rfl
    | jnan => rfl
    | jinf b => rfl
    | jstr s => rfl

/-- Witness for C5 amended: an object carrying only an `items` array is
accepted with that (empty) array. -/
theorem C5_amended_extraction_shapes_witness :
    coerceExtractionData (.jobj [(strCodes "items".data, .jarr [])]) =
      Except.ok [] :=
  C5_amended_extraction_shapes.2.2.1 [(strCodes "items".data, .jarr [])] []
    (fun _ h => Option.noConfusion h) rfl

/-! ### Claim C6 -/

/-- C6: a criterion that lacks a `criterion_id` (falsy, i.e. empty)
receives an id that depends only on `(section_id, chunk_index, text)` —
identical triples give identical ids regardless of the criterion's other
fields — and that id is exactly
`section_id ++ "-" ++ str(chunk_index) ++ "-"` followed by the first 16
hex characters of `sha1(section_id + str(chunk_index) + text)`. -/
theorem C6_deterministic_derived_id :
    (∀ (s s' t t' : List Char) (i i' : Nat) (c c' : Criterion),
      c.criterion_id = [] → c'.criterion_id = [] → s = s' → i = i' → t = t' →
      (ensureCriterionId s i t c).criterion_id
        = (ensureCriterionId s' i' t' c').criterion_id) ∧
    (∀ (s t : List Char) (i : Nat) (c : Criterion), c.criterion_id = [] →
      (ensureCriterionId s i t c).criterion_id =
        strCodes (s ++ "-".data ++ (Nat.repr i).data ++ "-".data ++
          (sha1hex (utf8Encode (s ++ (Nat.repr i).data ++ t))).take 16)) := by
  constructor
  · rintro s s' t t' i i' c c' hc hc' rfl rfl rfl
    rw [ensureCriterionId, if_pos hc, ensureCriterionId, if_pos hc']
  · intro s t i c hc
    rw [ensureCriterionId, if_pos hc]
    rfl

/-- Witness for C6: two criteria with empty ids but different contents
receive the same derived id from the same `(section_id, chunk_index,
text)`. -/
theorem C6_deterministic_derived_id_witness :
    (ensureCriterionId "section_1".data 0 "law text".data
        ⟨[], [65], [66], [67], none, none, none, [], [], none, none⟩).criterion_id
      = (ensureCriterionId "section_1".data 0 "law text".data
        ⟨[], [68], [69], [70], some [71], none, none, [[72]], [], none, none⟩).criterion_id :=
  C6_deterministic_derived_id.1 "section_1".data "section_1".data
    "law text".data "law text".data 0 0 _ _ rfl rfl rfl rfl rfl

end GeoGov
